import Mathlib

/-!
Verification of the raw DEFLATE stream decoder specified for the
omnizip/cabriolet repository.  The repository's two Python scripts only feed
a fixed byte string into a library decompressor; the decoder itself is not
part of the sources, so every definition below is modelled from the
specification (spec.md): the bit reader (§4.1), the canonical Huffman table
builder (§4.2), the block decoder (§4.3) and the incremental stream decoder
state machine (§4.4), together with the public contract
(`decompress`, `flush`, `isEOF`, `unusedData`, `bytesConsumed`).

Bytes are modelled as natural numbers (< 256 for real inputs); machine
integers do not overflow in any of the involved computations (all values fit
well below 2^32), so plain `Nat` arithmetic is the faithful embedding.
-/

namespace Cabriolet

set_option maxRecDepth 16000

/-- Modelled from the spec: the error taxonomy of §7.  `InsufficientInput` is
the recoverable suspension signal; all other members are fatal. -/
inductive ErrKind where
  | InsufficientInput
  | InvalidBlockType
  | LengthMismatchError
  | InvalidDynamicHeader
  | InvalidCode
  | InvalidBackReference
  | PrematureEndOfStream
  deriving DecidableEq

/-- Modelled from the spec: the Bit Reader of §4.1.  `buf` is every byte fed
so far (`feed` appends), `pos` is the bit cursor (LSB-first within each
byte); a (byte offset, bit offset) pair in §3 corresponds to
(`pos / 8`, `pos % 8`). -/
structure BitReader where
  buf : List Nat
  pos : Nat
  deriving DecidableEq

/-- Modelled from the spec: `feed(bytes)` appends bytes to the internal
buffer (§4.1). -/
def feedBR (b : List Nat) (br : BitReader) : BitReader :=
  { br with buf := br.buf ++ b }

/-- Bit `i` of the byte buffer, LSB-first within each byte. -/
def bitAt (buf : List Nat) (i : Nat) : Nat :=
  buf.getD (i / 8) 0 / 2 ^ (i % 8) % 2

/-- Value of `n` bits starting at bit position `p`, first bit read being the
least significant bit of the result (the LSB-first convention of §4.1). -/
def bitsVal (buf : List Nat) : Nat → Nat → Nat
  | _, 0 => 0
  | p, n + 1 => bitAt buf p + 2 * bitsVal buf (p + 1) n

/-- Modelled from the spec: `readBits(n)` (§4.1): returns the next `n` bits
as an unsigned integer, advancing the cursor; fails with
`InsufficientInput` if fewer than `n` bits are currently buffered. -/
def readBits (br : BitReader) (n : Nat) : Except ErrKind (Nat × BitReader) :=
  if br.pos + n ≤ 8 * br.buf.length then
    .ok (bitsVal br.buf br.pos n, { br with pos := br.pos + n })
  else
    .error .InsufficientInput

/-- `alignToByte()` target position: the cursor rounded up to the next byte
boundary (§4.1). -/
def alignPos (p : Nat) : Nat := (p + 7) / 8 * 8

/-- Resumable parsers over the bit reader: a parser returns a value and the
advanced reader, or an error.  An `InsufficientInput` result rolls the whole
parse back (the caller keeps the pre-parse cursor), which is how the spec's
"no partial-symbol state is lost across calls" is realised. -/
def P (α : Type) : Type := BitReader → Except ErrKind (α × BitReader)

def pureP {α : Type} (a : α) : P α := fun br => .ok (a, br)

def throwP {α : Type} (k : ErrKind) : P α := fun _ => .error k

/-- Continuation application on a parser outcome. -/
def contE {α β : Type} (r : Except ErrKind (α × BitReader)) (f : α → P β) :
    Except ErrKind (β × BitReader) :=
  match r with
  | .ok (a, br') => f a br'
  | .error e => .error e

def bindP {α β : Type} (p : P α) (f : α → P β) : P β := fun br => contE (p br) f

/-- Lift a pure `Except` computation into a parser (no bits consumed). -/
def liftE {α : Type} (e : Except ErrKind α) : P α := fun br =>
  match e with
  | .ok a => .ok (a, br)
  | .error k => .error k

def readBitsP (n : Nat) : P Nat := fun br => readBits br n

def alignP : P Unit := fun br => .ok ((), { br with pos := alignPos br.pos })

/-- Number of codes of length `l` in a code-length sequence (§4.2 step 1). -/
def countLen (lens : List Nat) (l : Nat) : Nat :=
  (lens.filter (fun x => x = l)).length

/-- Modelled from the spec: first code value of each length, via the
canonical formula `code[len] = (code[len-1] + count[len-1]) << 1` starting
from `code[1] = 0` (§4.2 step 2). -/
def nextCode (lens : List Nat) : Nat → Nat
  | 0 => 0
  | 1 => 0
  | l + 2 => (nextCode lens (l + 1) + countLen lens (l + 1)) * 2

/-- One pass over the symbols in increasing index order, handing each used
symbol the next free code of its length (§4.2 step 3).  `nxt.getD l 0` is
the next unassigned code of length `l`. -/
def buildCodesAux : List Nat → List Nat → List Nat
  | _, [] => []
  | nxt, l :: rest =>
    if l = 0 then 0 :: buildCodesAux nxt rest
    else nxt.getD l 0 :: buildCodesAux (nxt.set l (nxt.getD l 0 + 1)) rest

/-- Initial next-free-code table, indexed by code length 0..15. -/
def initNext (lens : List Nat) : List Nat :=
  (List.range 16).map (nextCode lens)

/-- Modelled from the spec: canonical Huffman code assignment (§4.2): the
code of each used symbol, in symbol-index order. -/
def buildCodes (lens : List Nat) : List Nat :=
  buildCodesAux (initNext lens) lens

/-- Code of symbol `s` (0 for unused symbols). -/
def codeOf (lens : List Nat) (s : Nat) : Nat := (buildCodes lens).getD s 0

/-- Decode table: one `(length, code)` entry per symbol index. -/
def buildTable (lens : List Nat) : List (Nat × Nat) :=
  lens.zip (buildCodes lens)

/-- Find the symbol whose code of length `len` equals `code`. -/
def findSymAux : List (Nat × Nat) → Nat → Nat → Nat → Option Nat
  | [], _, _, _ => none
  | (l, c) :: rest, idx, len, code =>
    if l = len ∧ c = code then some idx else findSymAux rest (idx + 1) len code

def findSym (tbl : List (Nat × Nat)) (len code : Nat) : Option Nat :=
  findSymAux tbl 0 len code

/-- Modelled from the spec: `decodeSymbol` (§4.2): read bits one at a time,
accumulating them MSB-first as Huffman codes are packed, until a matching
code is found; fail with `InvalidCode` if no match within 15 bits. -/
def decodeSymAux (tbl : List (Nat × Nat)) : Nat → Nat → Nat → P Nat
  | 0, _, _ => throwP .InvalidCode
  | fuel + 1, len, code =>
    bindP (readBitsP 1) fun b =>
      (findSym tbl (len + 1) (2 * code + b)).elim
        (decodeSymAux tbl fuel (len + 1) (2 * code + b)) pureP

def decodeSym (tbl : List (Nat × Nat)) : P Nat := decodeSymAux tbl 15 0 0

/-- Fixed literal/length code lengths (§4.2, per RFC 1951):
symbols 0-143 get 8 bits, 144-255 get 9, 256-279 get 7, 280-287 get 8. -/
def fixedLitLens : List Nat :=
  List.replicate 144 8 ++ List.replicate 112 9 ++
    List.replicate 24 7 ++ List.replicate 8 8

/-- Fixed distance code lengths: 5 bits for each of the 32 symbols. -/
def fixedDistLens : List Nat := List.replicate 32 5

/-- Extra-bit counts for length symbols 257-285 (fixed DEFLATE table):
eight 0-bit codes, then four codes for each extra-bit width 1..5, then the
0-bit code for length 258. -/
def lenExtraList : List Nat :=
  ((List.range 6).map fun k =>
    List.replicate (if k = 0 then 8 else 4) k).flatten ++ [0]

/-- Cumulative base values: each code's base is the previous base plus the
previous code's extra-bit span. -/
def basesAux : Nat → List Nat → List Nat
  | _, [] => []
  | acc, e :: rest => acc :: basesAux (acc + 2 ^ e) rest

/-- Base lengths for length symbols 257-285 (fixed DEFLATE table): bases
accumulate from 3 along the extra-bit spans, except that the final code
denotes length 258 exactly. -/
def lenBaseList : List Nat :=
  (basesAux 3 lenExtraList).take 28 ++ [258]

/-- Extra-bit counts for distance symbols 0-29 (fixed DEFLATE table): two
0-bit codes, then two codes for each extra-bit width 0..13. -/
def distExtraList : List Nat :=
  List.replicate 2 0 ++ ((List.range 14).map fun k => List.replicate 2 k).flatten

/-- Base distances for distance symbols 0-29 (fixed DEFLATE table): bases
accumulate from 1 along the extra-bit spans. -/
def distBaseList : List Nat :=
  basesAux 1 distExtraList


/-- Modelled from the spec: the precomputed fixed literal/length decode
table (§4.2), a constant per the DEFLATE fixed code-length assignment;
`fixedTables_eq` below checks it against the canonical builder. -/
def fixedLitTable : List (Nat × Nat) :=
  [(8, 48), (8, 49), (8, 50), (8, 51), (8, 52), (8, 53), (8, 54), (8, 55),
   (8, 56), (8, 57), (8, 58), (8, 59), (8, 60), (8, 61), (8, 62), (8, 63),
   (8, 64), (8, 65), (8, 66), (8, 67), (8, 68), (8, 69), (8, 70), (8, 71),
   (8, 72), (8, 73), (8, 74), (8, 75), (8, 76), (8, 77), (8, 78), (8, 79),
   (8, 80), (8, 81), (8, 82), (8, 83), (8, 84), (8, 85), (8, 86), (8, 87),
   (8, 88), (8, 89), (8, 90), (8, 91), (8, 92), (8, 93), (8, 94), (8, 95),
   (8, 96), (8, 97), (8, 98), (8, 99), (8, 100), (8, 101), (8, 102),
   (8, 103), (8, 104), (8, 105), (8, 106), (8, 107), (8, 108), (8, 109),
   (8, 110), (8, 111), (8, 112), (8, 113), (8, 114), (8, 115), (8, 116),
   (8, 117), (8, 118), (8, 119), (8, 120), (8, 121), (8, 122), (8, 123),
   (8, 124), (8, 125), (8, 126), (8, 127), (8, 128), (8, 129), (8, 130),
   (8, 131), (8, 132), (8, 133), (8, 134), (8, 135), (8, 136), (8, 137),
   (8, 138), (8, 139), (8, 140), (8, 141), (8, 142), (8, 143), (8, 144),
   (8, 145), (8, 146), (8, 147), (8, 148), (8, 149), (8, 150), (8, 151),
   (8, 152), (8, 153), (8, 154), (8, 155), (8, 156), (8, 157), (8, 158),
   (8, 159), (8, 160), (8, 161), (8, 162), (8, 163), (8, 164), (8, 165),
   (8, 166), (8, 167), (8, 168), (8, 169), (8, 170), (8, 171), (8, 172),
   (8, 173), (8, 174), (8, 175), (8, 176), (8, 177), (8, 178), (8, 179),
   (8, 180), (8, 181), (8, 182), (8, 183), (8, 184), (8, 185), (8, 186),
   (8, 187), (8, 188), (8, 189), (8, 190), (8, 191), (9, 400), (9, 401),
   (9, 402), (9, 403), (9, 404), (9, 405), (9, 406), (9, 407), (9, 408),
   (9, 409), (9, 410), (9, 411), (9, 412), (9, 413), (9, 414), (9, 415),
   (9, 416), (9, 417), (9, 418), (9, 419), (9, 420), (9, 421), (9, 422),
   (9, 423), (9, 424), (9, 425), (9, 426), (9, 427), (9, 428), (9, 429),
   (9, 430), (9, 431), (9, 432), (9, 433), (9, 434), (9, 435), (9, 436),
   (9, 437), (9, 438), (9, 439), (9, 440), (9, 441), (9, 442), (9, 443),
   (9, 444), (9, 445), (9, 446), (9, 447), (9, 448), (9, 449), (9, 450),
   (9, 451), (9, 452), (9, 453), (9, 454), (9, 455), (9, 456), (9, 457),
   (9, 458), (9, 459), (9, 460), (9, 461), (9, 462), (9, 463), (9, 464),
   (9, 465), (9, 466), (9, 467), (9, 468), (9, 469), (9, 470), (9, 471),
   (9, 472), (9, 473), (9, 474), (9, 475), (9, 476), (9, 477), (9, 478),
   (9, 479), (9, 480), (9, 481), (9, 482), (9, 483), (9, 484), (9, 485),
   (9, 486), (9, 487), (9, 488), (9, 489), (9, 490), (9, 491), (9, 492),
   (9, 493), (9, 494), (9, 495), (9, 496), (9, 497), (9, 498), (9, 499),
   (9, 500), (9, 501), (9, 502), (9, 503), (9, 504), (9, 505), (9, 506),
   (9, 507), (9, 508), (9, 509), (9, 510), (9, 511), (7, 0), (7, 1),
   (7, 2), (7, 3), (7, 4), (7, 5), (7, 6), (7, 7), (7, 8), (7, 9), (7, 10),
   (7, 11), (7, 12), (7, 13), (7, 14), (7, 15), (7, 16), (7, 17), (7, 18),
   (7, 19), (7, 20), (7, 21), (7, 22), (7, 23), (8, 192), (8, 193),
   (8, 194), (8, 195), (8, 196), (8, 197), (8, 198), (8, 199)]

/-- Modelled from the spec: the precomputed fixed distance decode table
(§4.2). -/
def fixedDistTable : List (Nat × Nat) :=
  [(5, 0), (5, 1), (5, 2), (5, 3), (5, 4), (5, 5), (5, 6), (5, 7), (5, 8),
   (5, 9), (5, 10), (5, 11), (5, 12), (5, 13), (5, 14), (5, 15), (5, 16),
   (5, 17), (5, 18), (5, 19), (5, 20), (5, 21), (5, 22), (5, 23), (5, 24),
   (5, 25), (5, 26), (5, 27), (5, 28), (5, 29), (5, 30), (5, 31)]

/-- Modelled from the spec: `DecoderState` (§3, §4.4).  Following §9, the
implicit per-block state (the Huffman tables of the current block and its
`final` flag, the remaining byte count of a stored block) is explicit. -/
inductive MState where
  | NeedMoreInput
  | InBlockHeader
  | InStoredBlock (remaining : Nat) (fin : Bool)
  | InHuffmanBlock (lit dist : List (Nat × Nat)) (fin : Bool)
  | Done
  | Error (k : ErrKind)
  deriving DecidableEq

/-- Modelled from the spec: the Stream Decoder state (§4.4): the bit reader,
the machine state, and the output produced so far (the sliding window of §3
is its most recent suffix; see `window`). -/
structure DecSt where
  br : BitReader
  st : MState
  out : List Nat
  deriving DecidableEq

/-- The sliding window: the most recent up-to-32768 bytes of output (§3). -/
def window (s : DecSt) : List Nat := s.out.drop (s.out.length - 32768)

/-- The freshly constructed decoder. -/
def initSt : DecSt := { br := { buf := [], pos := 0 }, st := .NeedMoreInput, out := [] }

/-- Feed a chunk of input bytes to the decoder (appends to the bit reader). -/
def feedD (b : List Nat) (s : DecSt) : DecSt := { s with br := feedBR b s.br }

/-- Modelled from the spec: LZ77 back-reference copy (§4.5 symbol loop):
copy `cnt` bytes, each taken `dist` bytes before the current end of the
output; a read out of range of the produced output yields `none`. -/
def backRefCopy : List Nat → Nat → Nat → Option (List Nat)
  | w, _, 0 => some w
  | w, dist, cnt + 1 =>
    match w.get? (w.length - dist) with
    | none => none
    | some byte => backRefCopy (w ++ [byte]) dist cnt

/-- Modelled from the spec: resolve one back-reference against the output
produced so far; fails with `InvalidBackReference` if the computed distance
exceeds the amount of output produced so far (§4.3). -/
def applyBackRef (out : List Nat) (dist cnt : Nat) : Except ErrKind (List Nat) :=
  if out.length < dist then .error .InvalidBackReference
  else
    match backRefCopy out dist cnt with
    | some o => .ok o
    | none => .error .InvalidBackReference

/-- Modelled from the spec: the stored-block prelude (§4.3): byte-align,
read 2-byte little-endian LEN then 2-byte NLEN, fail with
`LengthMismatchError` unless NLEN is the one-complement of LEN. -/
def storedSetupP (fin : Bool) : P MState :=
  bindP alignP fun _ =>
  bindP (readBitsP 16) fun len =>
  bindP (readBitsP 16) fun nlen =>
  if nlen = 65535 - len then pureP (.InStoredBlock len fin)
  else throwP .LengthMismatchError

/-- The fixed permutation in which the code-length-alphabet lengths are
transmitted in a dynamic header (§4.3). -/
def clPerm : List Nat :=
  [16, 17, 18, 0, 8, 7, 9, 6, 10, 5, 11, 4, 12, 3, 13, 2, 14, 1, 15]

/-- Read `n` fields of `width` bits each, in order. -/
def readNVals (width : Nat) : Nat → P (List Nat)
  | 0 => pureP []
  | n + 1 =>
    bindP (readBitsP width) fun v =>
      bindP (readNVals width n) fun rest => pureP (v :: rest)

/-- Rearrange the transmitted code-length-alphabet lengths into
symbol-index order: symbol `j` gets the value transmitted at the position
of `j` in `clPerm`, or 0 if fewer than that many were transmitted. -/
def permuteCLLens (vals : List Nat) : List Nat :=
  (List.range 19).map fun j => vals.getD (clPerm.findIdx (fun x => x == j)) 0

/-- A code-length sequence is not over-subscribed: at every length the
canonical construction stays within the available code space. -/
def lensOk (lens : List Nat) : Bool :=
  (List.range 15).all fun l =>
    decide (nextCode lens (l + 1) + countLen lens (l + 1) ≤ 2 ^ (l + 1))

/-- Modelled from the spec: decode the `need` literal/length and distance
code lengths of a dynamic header using the code-length table, with the
repeat operators 16 (repeat previous 3-6), 17 (zeros 3-10) and
18 (zeros 11-138); malformed repeats fail with `InvalidDynamicHeader`
(§4.3).  `fuel` bounds the recursion; `fuel = need` always suffices since
every iteration emits at least one length. -/
def readCLs (tbl : List (Nat × Nat)) : Nat → Nat → Option Nat → P (List Nat)
  | 0, need, _ =>
    if need = 0 then pureP [] else throwP .InvalidDynamicHeader
  | fuel + 1, need, prev =>
    if need = 0 then pureP []
    else
      bindP (decodeSym tbl) fun s =>
        if s < 16 then
          bindP (readCLs tbl fuel (need - 1) (some s)) fun rest => pureP (s :: rest)
        else if s = 16 then
          match prev with
          | none => throwP .InvalidDynamicHeader
          | some p =>
            bindP (readBitsP 2) fun e =>
              if 3 + e ≤ need then
                bindP (readCLs tbl fuel (need - (3 + e)) (some p)) fun rest =>
                  pureP (List.replicate (3 + e) p ++ rest)
              else throwP .InvalidDynamicHeader
        else if s = 17 then
          bindP (readBitsP 3) fun e =>
            if 3 + e ≤ need then
              bindP (readCLs tbl fuel (need - (3 + e)) (some 0)) fun rest =>
                pureP (List.replicate (3 + e) 0 ++ rest)
            else throwP .InvalidDynamicHeader
        else if s = 18 then
          bindP (readBitsP 7) fun e =>
            if 11 + e ≤ need then
              bindP (readCLs tbl fuel (need - (11 + e)) (some 0)) fun rest =>
                pureP (List.replicate (11 + e) 0 ++ rest)
            else throwP .InvalidDynamicHeader
        else throwP .InvalidCode

/-- Modelled from the spec: the dynamic-Huffman block header (§4.3): read
HLIT+257, HDIST+1, HCLEN+4, the permuted code-length-alphabet lengths,
decode all literal/length and distance code lengths, and build both decode
tables; an over-subscribed table fails with `InvalidDynamicHeader`. -/
def dynHeaderP (fin : Bool) : P MState :=
  bindP (readBitsP 5) fun hlit =>
  bindP (readBitsP 5) fun hdist =>
  bindP (readBitsP 4) fun hclen =>
  bindP (readNVals 3 (hclen + 4)) fun clVals =>
  let clLens := permuteCLLens clVals
  if lensOk clLens then
    bindP (readCLs (buildTable clLens) (258 + hlit + hdist) (258 + hlit + hdist) none)
      fun allLens =>
        let litLens := allLens.take (257 + hlit)
        let distLens := allLens.drop (257 + hlit)
        if lensOk litLens && lensOk distLens then
          pureP (.InHuffmanBlock (buildTable litLens) (buildTable distLens) fin)
        else throwP .InvalidDynamicHeader
  else throwP .InvalidDynamicHeader

/-- Modelled from the spec: `decodeBlockHeader` (§4.3): 1 bit `final` flag,
2 bits block type (00 stored, 01 fixed, 10 dynamic, 11 invalid →
`InvalidBlockType`), followed by the per-type setup. -/
def headerP : P MState :=
  bindP (readBitsP 1) fun f =>
  bindP (readBitsP 2) fun t =>
  if t = 0 then storedSetupP (f == 1)
  else if t = 1 then
    pureP (.InHuffmanBlock fixedLitTable fixedDistTable (f == 1))
  else if t = 2 then dynHeaderP (f == 1)
  else throwP .InvalidBlockType

/-- Modelled from the spec: one iteration of the symbol loop (§4.3): decode
a literal/length symbol; 0-255 is a literal byte, 256 ends the block,
257-285 is a back-reference length followed by a distance symbol and the
extra bits of both. -/
def symP (lit dist : List (Nat × Nat)) (fin : Bool) (out : List Nat) :
    P (MState × List Nat) :=
  bindP (decodeSym lit) fun s =>
  if s < 256 then pureP (.InHuffmanBlock lit dist fin, out ++ [s])
  else if s = 256 then
    pureP (if fin then MState.Done else MState.InBlockHeader, out)
  else
    ((lenExtraList.zip lenBaseList).get? (s - 257)).elim (throwP .InvalidCode)
      fun eb =>
        bindP (readBitsP eb.1) fun ev =>
        bindP (decodeSym dist) fun ds =>
        ((distExtraList.zip distBaseList).get? ds).elim (throwP .InvalidCode)
          fun db =>
            bindP (readBitsP db.1) fun dv =>
            bindP (liftE (applyBackRef out (db.2 + dv) (eb.2 + ev))) fun out2 =>
            pureP (.InHuffmanBlock lit dist fin, out2)

/-- Turn a parser outcome into a machine transition: on `InsufficientInput`
the decoder pauses with no state change (the suspension of §4.4/§5); on a
fatal error it enters the terminal `Error` state; on success `upd` builds
the next state from the parsed value and the advanced reader. -/
def handleR {α : Type} (r : Except ErrKind (α × BitReader)) (s : DecSt)
    (upd : α → BitReader → DecSt) : Option DecSt :=
  match r with
  | .ok (a, br') => some (upd a br')
  | .error k =>
    if k = .InsufficientInput then none else some { s with st := .Error k }

def applyP {α : Type} (p : P α) (s : DecSt) (upd : α → BitReader → DecSt) :
    Option DecSt :=
  handleR (p s.br) s upd

/-- Modelled from the spec: one transition of the state machine (§4.4).
`none` means the machine cannot advance (terminal state, or waiting for
more input). -/
def step (s : DecSt) : Option DecSt :=
  match s.st with
  | .NeedMoreInput =>
    if 3 ≤ 8 * s.br.buf.length - s.br.pos then some { s with st := .InBlockHeader }
    else none
  | .InBlockHeader =>
    applyP headerP s fun st2 br' => { s with st := st2, br := br' }
  | .InStoredBlock 0 fin =>
    some { s with st := if fin then .Done else .InBlockHeader }
  | .InStoredBlock (r + 1) fin =>
    applyP (readBitsP 8) s fun v br' =>
      { s with st := .InStoredBlock r fin, br := br', out := s.out ++ [v] }
  | .InHuffmanBlock lit dist fin =>
    applyP (symP lit dist fin s.out) s fun a br' =>
      { s with st := a.1, br := br', out := a.2 }
  | .Done => none
  | .Error _ => none

/-- Iterate `step` at most `fuel` times, stopping at the first state that
cannot advance. -/
def driveF : Nat → DecSt → DecSt
  | 0, s => s
  | fuel + 1, s =>
    match step s with
    | none => s
    | some s2 => driveF fuel s2

/-- Weight of a machine state, used in the termination measure. -/
def stWeight : MState → Nat
  | .NeedMoreInput => 2
  | .InBlockHeader => 1
  | .InStoredBlock _ _ => 2
  | .InHuffmanBlock _ _ _ => 1
  | .Done => 0
  | .Error _ => 0

/-- Termination measure: every `step` strictly decreases it. -/
def measureOf (s : DecSt) : Nat :=
  2 * (8 * s.br.buf.length - s.br.pos) + stWeight s.st

/-- Fuel that always suffices to reach a stuck state. -/
def fuelOf (s : DecSt) : Nat := 16 * s.br.buf.length + 4

/-- Drive the state machine as far as the buffered bits allow (§4.4). -/
def drive (s : DecSt) : DecSt := driveF (fuelOf s) s

/-- Modelled from the spec: `decompress(chunk)` at the state level: feed the
chunk and drive the machine as far as possible (§4.4). -/
def decompressSt (chunk : List Nat) (s : DecSt) : DecSt := drive (feedD chunk s)

/-- Modelled from the spec: `bytesConsumed()` (§4.4): the number of input
bytes at least one bit of which was used for output or framing. -/
def bytesConsumed (s : DecSt) : Nat := (s.br.pos + 7) / 8

/-- Modelled from the spec: `unusedData()` (§4.4): the input bytes beyond
the end of the stream once `Done` is reached, verbatim, in order. -/
def unusedData (s : DecSt) : List Nat :=
  match s.st with
  | .Done => s.br.buf.drop (bytesConsumed s)
  | _ => []

/-- Modelled from the spec: `isEOF()` (§4.4). -/
def isEOF (s : DecSt) : Bool :=
  match s.st with
  | .Done => true
  | _ => false

/-- Modelled from the spec: the full `decompress(chunk)` call (§4.4):
returns the newly produced bytes, or rejects with the decoder's fatal
error. -/
def decompressCall (chunk : List Nat) (s : DecSt) :
    Except ErrKind (List Nat × DecSt) :=
  match (decompressSt chunk s).st with
  | .Error k => .error k
  | _ => .ok ((decompressSt chunk s).out.drop s.out.length, decompressSt chunk s)

/-- Modelled from the spec: `flush()` (§4.4): succeeds at `Done` or a clean
block boundary, re-raises a fatal error, and fails with
`PrematureEndOfStream` mid-block. -/
def flush (s : DecSt) : Except ErrKind (List Nat) :=
  match s.st with
  | .Done => .ok []
  | .Error k => .error k
  | .NeedMoreInput => .ok []
  | .InBlockHeader => .ok []
  | _ => .error .PrematureEndOfStream

/-- Feed a sequence of chunks through `decompress`, in order. -/
def runChunks (cs : List (List Nat)) (s : DecSt) : DecSt :=
  cs.foldl (fun t c => decompressSt c t) s

/-- The 39-byte raw DEFLATE input fixed by both source scripts. -/
def compressedBytes : List Nat :=
  [0x0b, 0xc9, 0xc8, 0x2c, 0x56, 0x00, 0xa2, 0xe4, 0xfc, 0xdc, 0x82, 0xa2,
   0xd4, 0xe2, 0xe2, 0xd4, 0x14, 0x85, 0xf2, 0xcc, 0x92, 0x0c, 0x05, 0xdf,
   0x60, 0xdd, 0x28, 0xcf, 0x00, 0x2e, 0xb0, 0x74, 0x62, 0x4e, 0x71, 0x3e,
   0x1e, 0x35, 0x00]

/-- The decoder state after the one-call decode of check_deflate_consume.py. -/
def oneShotRun : DecSt := decompressSt compressedBytes initSt

/-- The decoder state after the per-byte decode loop of
analyze_python_deflate.py. -/
def perByteRun : DecSt := runChunks (compressedBytes.map fun b => [b]) initSt

/-- A decoder state in a fatal error: byte 0x07 announces a reserved block
type (bits final=1, type=11). -/
def errRun : DecSt := decompressSt [0x07] initSt

/-- Intermediate decoder states of the concrete run over
`compressedBytes`, one per machine step (see the runStep lemmas). -/
def cs0 : DecSt :=
  { br := { buf := compressedBytes, pos := 0 },
    st := .NeedMoreInput,
    out := [] }

def cs1 : DecSt :=
  { br := { buf := compressedBytes, pos := 0 },
    st := .InBlockHeader,
    out := [] }

def cs2 : DecSt :=
  { br := { buf := compressedBytes, pos := 3 },
    st := .InHuffmanBlock fixedLitTable fixedDistTable true,
    out := [] }

def cs3 : DecSt :=
  { br := { buf := compressedBytes, pos := 11 },
    st := .InHuffmanBlock fixedLitTable fixedDistTable true,
    out := [84] }

def cs4 : DecSt :=
  { br := { buf := compressedBytes, pos := 19 },
    st := .InHuffmanBlock fixedLitTable fixedDistTable true,
    out := [84, 104] }

def cs5 : DecSt :=
  { br := { buf := compressedBytes, pos := 27 },
    st := .InHuffmanBlock fixedLitTable fixedDistTable true,
    out := [84, 104, 105] }

def cs6 : DecSt :=
  { br := { buf := compressedBytes, pos := 35 },
    st := .InHuffmanBlock fixedLitTable fixedDistTable true,
    out := [84, 104, 105, 115] }

def cs7 : DecSt :=
  { br := { buf := compressedBytes, pos := 43 },
    st := .InHuffmanBlock fixedLitTable fixedDistTable true,
    out := [84, 104, 105, 115, 32] }

def cs8 : DecSt :=
  { br := { buf := compressedBytes, pos := 55 },
    st := .InHuffmanBlock fixedLitTable fixedDistTable true,
    out := [84, 104, 105, 115, 32, 105, 115, 32] }

def cs9 : DecSt :=
  { br := { buf := compressedBytes, pos := 63 },
    st := .InHuffmanBlock fixedLitTable fixedDistTable true,
    out := [84, 104, 105, 115, 32, 105, 115, 32, 99] }

def cs10 : DecSt :=
  { br := { buf := compressedBytes, pos := 71 },
    st := .InHuffmanBlock fixedLitTable fixedDistTable true,
    out := [84, 104, 105, 115, 32, 105, 115, 32, 99, 111] }

def cs11 : DecSt :=
  { br := { buf := compressedBytes, pos := 79 },
    st := .InHuffmanBlock fixedLitTable fixedDistTable true,
    out := [84, 104, 105, 115, 32, 105, 115, 32, 99, 111, 109] }

def cs12 : DecSt :=
  { br := { buf := compressedBytes, pos := 87 },
    st := .InHuffmanBlock fixedLitTable fixedDistTable true,
    out := [84, 104, 105, 115, 32, 105, 115, 32, 99, 111, 109, 112] }

def cs13 : DecSt :=
  { br := { buf := compressedBytes, pos := 95 },
    st := .InHuffmanBlock fixedLitTable fixedDistTable true,
    out := [84, 104, 105, 115, 32, 105, 115, 32, 99, 111, 109, 112, 114] }

def cs14 : DecSt :=
  { br := { buf := compressedBytes, pos := 103 },
    st := .InHuffmanBlock fixedLitTable fixedDistTable true,
    out := [84, 104, 105, 115, 32, 105, 115, 32, 99, 111, 109, 112, 114,
            101] }

def cs15 : DecSt :=
  { br := { buf := compressedBytes, pos := 111 },
    st := .InHuffmanBlock fixedLitTable fixedDistTable true,
    out := [84, 104, 105, 115, 32, 105, 115, 32, 99, 111, 109, 112, 114,
            101, 115] }

def cs16 : DecSt :=
  { br := { buf := compressedBytes, pos := 119 },
    st := .InHuffmanBlock fixedLitTable fixedDistTable true,
    out := [84, 104, 105, 115, 32, 105, 115, 32, 99, 111, 109, 112, 114,
            101, 115, 115] }

def cs17 : DecSt :=
  { br := { buf := compressedBytes, pos := 127 },
    st := .InHuffmanBlock fixedLitTable fixedDistTable true,
    out := [84, 104, 105, 115, 32, 105, 115, 32, 99, 111, 109, 112, 114,
            101, 115, 115, 101] }

def cs18 : DecSt :=
  { br := { buf := compressedBytes, pos := 135 },
    st := .InHuffmanBlock fixedLitTable fixedDistTable true,
    out := [84, 104, 105, 115, 32, 105, 115, 32, 99, 111, 109, 112, 114,
            101, 115, 115, 101, 100] }

def cs19 : DecSt :=
  { br := { buf := compressedBytes, pos := 143 },
    st := .InHuffmanBlock fixedLitTable fixedDistTable true,
    out := [84, 104, 105, 115, 32, 105, 115, 32, 99, 111, 109, 112, 114,
            101, 115, 115, 101, 100, 32] }

def cs20 : DecSt :=
  { br := { buf := compressedBytes, pos := 151 },
    st := .InHuffmanBlock fixedLitTable fixedDistTable true,
    out := [84, 104, 105, 115, 32, 105, 115, 32, 99, 111, 109, 112, 114,
            101, 115, 115, 101, 100, 32, 119] }

def cs21 : DecSt :=
  { br := { buf := compressedBytes, pos := 159 },
    st := .InHuffmanBlock fixedLitTable fixedDistTable true,
    out := [84, 104, 105, 115, 32, 105, 115, 32, 99, 111, 109, 112, 114,
            101, 115, 115, 101, 100, 32, 119, 105] }

def cs22 : DecSt :=
  { br := { buf := compressedBytes, pos := 167 },
    st := .InHuffmanBlock fixedLitTable fixedDistTable true,
    out := [84, 104, 105, 115, 32, 105, 115, 32, 99, 111, 109, 112, 114,
            101, 115, 115, 101, 100, 32, 119, 105, 116] }

def cs23 : DecSt :=
  { br := { buf := compressedBytes, pos := 175 },
    st := .InHuffmanBlock fixedLitTable fixedDistTable true,
    out := [84, 104, 105, 115, 32, 105, 115, 32, 99, 111, 109, 112, 114,
            101, 115, 115, 101, 100, 32, 119, 105, 116, 104] }

def cs24 : DecSt :=
  { br := { buf := compressedBytes, pos := 183 },
    st := .InHuffmanBlock fixedLitTable fixedDistTable true,
    out := [84, 104, 105, 115, 32, 105, 115, 32, 99, 111, 109, 112, 114,
            101, 115, 115, 101, 100, 32, 119, 105, 116, 104, 32] }

def cs25 : DecSt :=
  { br := { buf := compressedBytes, pos := 191 },
    st := .InHuffmanBlock fixedLitTable fixedDistTable true,
    out := [84, 104, 105, 115, 32, 105, 115, 32, 99, 111, 109, 112, 114,
            101, 115, 115, 101, 100, 32, 119, 105, 116, 104, 32, 77] }

def cs26 : DecSt :=
  { br := { buf := compressedBytes, pos := 199 },
    st := .InHuffmanBlock fixedLitTable fixedDistTable true,
    out := [84, 104, 105, 115, 32, 105, 115, 32, 99, 111, 109, 112, 114,
            101, 115, 115, 101, 100, 32, 119, 105, 116, 104, 32, 77, 83] }

def cs27 : DecSt :=
  { br := { buf := compressedBytes, pos := 207 },
    st := .InHuffmanBlock fixedLitTable fixedDistTable true,
    out := [84, 104, 105, 115, 32, 105, 115, 32, 99, 111, 109, 112, 114,
            101, 115, 115, 101, 100, 32, 119, 105, 116, 104, 32, 77, 83, 45] }

def cs28 : DecSt :=
  { br := { buf := compressedBytes, pos := 215 },
    st := .InHuffmanBlock fixedLitTable fixedDistTable true,
    out := [84, 104, 105, 115, 32, 105, 115, 32, 99, 111, 109, 112, 114,
            101, 115, 115, 101, 100, 32, 119, 105, 116, 104, 32, 77, 83,
            45, 90] }

def cs29 : DecSt :=
  { br := { buf := compressedBytes, pos := 223 },
    st := .InHuffmanBlock fixedLitTable fixedDistTable true,
    out := [84, 104, 105, 115, 32, 105, 115, 32, 99, 111, 109, 112, 114,
            101, 115, 115, 101, 100, 32, 119, 105, 116, 104, 32, 77, 83,
            45, 90, 73] }

def cs30 : DecSt :=
  { br := { buf := compressedBytes, pos := 231 },
    st := .InHuffmanBlock fixedLitTable fixedDistTable true,
    out := [84, 104, 105, 115, 32, 105, 115, 32, 99, 111, 109, 112, 114,
            101, 115, 115, 101, 100, 32, 119, 105, 116, 104, 32, 77, 83,
            45, 90, 73, 80] }

def cs31 : DecSt :=
  { br := { buf := compressedBytes, pos := 239 },
    st := .InHuffmanBlock fixedLitTable fixedDistTable true,
    out := [84, 104, 105, 115, 32, 105, 115, 32, 99, 111, 109, 112, 114,
            101, 115, 115, 101, 100, 32, 119, 105, 116, 104, 32, 77, 83,
            45, 90, 73, 80, 10] }

def cs32 : DecSt :=
  { br := { buf := compressedBytes, pos := 254 },
    st := .InHuffmanBlock fixedLitTable fixedDistTable true,
    out := [84, 104, 105, 115, 32, 105, 115, 32, 99, 111, 109, 112, 114,
            101, 115, 115, 101, 100, 32, 119, 105, 116, 104, 32, 77, 83,
            45, 90, 73, 80, 10, 84, 104, 105, 115, 32] }

def cs33 : DecSt :=
  { br := { buf := compressedBytes, pos := 262 },
    st := .InHuffmanBlock fixedLitTable fixedDistTable true,
    out := [84, 104, 105, 115, 32, 105, 115, 32, 99, 111, 109, 112, 114,
            101, 115, 115, 101, 100, 32, 119, 105, 116, 104, 32, 77, 83,
            45, 90, 73, 80, 10, 84, 104, 105, 115, 32, 97] }

def cs34 : DecSt :=
  { br := { buf := compressedBytes, pos := 270 },
    st := .InHuffmanBlock fixedLitTable fixedDistTable true,
    out := [84, 104, 105, 115, 32, 105, 115, 32, 99, 111, 109, 112, 114,
            101, 115, 115, 101, 100, 32, 119, 105, 116, 104, 32, 77, 83,
            45, 90, 73, 80, 10, 84, 104, 105, 115, 32, 97, 108] }

def cs35 : DecSt :=
  { br := { buf := compressedBytes, pos := 278 },
    st := .InHuffmanBlock fixedLitTable fixedDistTable true,
    out := [84, 104, 105, 115, 32, 105, 115, 32, 99, 111, 109, 112, 114,
            101, 115, 115, 101, 100, 32, 119, 105, 116, 104, 32, 77, 83,
            45, 90, 73, 80, 10, 84, 104, 105, 115, 32, 97, 108, 115] }

def cs36 : DecSt :=
  { br := { buf := compressedBytes, pos := 286 },
    st := .InHuffmanBlock fixedLitTable fixedDistTable true,
    out := [84, 104, 105, 115, 32, 105, 115, 32, 99, 111, 109, 112, 114,
            101, 115, 115, 101, 100, 32, 119, 105, 116, 104, 32, 77, 83,
            45, 90, 73, 80, 10, 84, 104, 105, 115, 32, 97, 108, 115, 111] }

def cs37 : DecSt :=
  { br := { buf := compressedBytes, pos := 304 },
    st := .InHuffmanBlock fixedLitTable fixedDistTable true,
    out := [84, 104, 105, 115, 32, 105, 115, 32, 99, 111, 109, 112, 114,
            101, 115, 115, 101, 100, 32, 119, 105, 116, 104, 32, 77, 83,
            45, 90, 73, 80, 10, 84, 104, 105, 115, 32, 97, 108, 115, 111,
            32, 105, 115, 32, 99, 111, 109, 112, 114, 101, 115, 115, 101,
            100, 32, 119, 105, 116, 104, 32, 77, 83, 45, 90, 73, 80, 10] }

def cs38 : DecSt :=
  { br := { buf := compressedBytes, pos := 311 },
    st := .Done,
    out := [84, 104, 105, 115, 32, 105, 115, 32, 99, 111, 109, 112, 114,
            101, 115, 115, 101, 100, 32, 119, 105, 116, 104, 32, 77, 83,
            45, 90, 73, 80, 10, 84, 104, 105, 115, 32, 97, 108, 115, 111,
            32, 105, 115, 32, 99, 111, 109, 112, 114, 101, 115, 115, 101,
            100, 32, 119, 105, 116, 104, 32, 77, 83, 45, 90, 73, 80, 10] }

/-- A finished decoder state over the two-byte empty fixed-block stream. -/
def doneSt : DecSt :=
  { br := { buf := [3, 0], pos := 10 }, st := .Done, out := [] }

/-- A decoder state at the start of the body of a final stored block with
LEN = 2 over the stream `01 02 00 fd ff aa bb` (here given with the header
bits of byte 0x01 already consumed and the cursor aligned at byte 4). -/
def storedDemoSt : DecSt :=
  { br := { buf := [2, 0, 253, 255, 170, 187], pos := 32 },
    st := .InStoredBlock 2 true, out := [] }

/-- The state reached after copying the two stored bytes of
`storedDemoSt` and finishing the final block. -/
def storedDemoEnd : DecSt :=
  { br := { buf := [2, 0, 253, 255, 170, 187], pos := 48 },
    st := .Done, out := [170, 187] }

/-- A decoder state about to finish an empty final stored block. -/
def emptyStoredSt : DecSt :=
  { br := { buf := [], pos := 0 }, st := .InStoredBlock 0 true, out := [5] }

/-- Whether two codes, given as (length, value) pairs, are related by the
first being a bit-string prefix of the second (codes read MSB-first). -/
def isPrefCode (l1 c1 l2 c2 : Nat) : Prop :=
  l1 ≤ l2 ∧ c2 / 2 ^ (l2 - l1) = c1

/-- A parser is stable under feeding more input: a successful parse still
succeeds with the same value (and correspondingly fed reader), and a fatal
error is still the same fatal error.  Only the recoverable
`InsufficientInput` outcome may change when more bytes arrive. -/
def StableP {α : Type} (p : P α) : Prop :=
  (∀ b br v br', p br = .ok (v, br') → p (feedBR b br) = .ok (v, feedBR b br')) ∧
  (∀ b br k, k ≠ ErrKind.InsufficientInput → p br = .error k →
    p (feedBR b br) = .error k)

/-- A successful parse never rewinds the cursor, never touches the buffer,
and never leaves the cursor beyond both the buffered bits and its start. -/
def LaxP {α : Type} (p : P α) : Prop :=
  ∀ br v br', p br = .ok (v, br') →
    br'.buf = br.buf ∧ br.pos ≤ br'.pos ∧
      br'.pos ≤ max (8 * br.buf.length) br.pos

/-- A successful parse strictly advances the cursor and leaves it within
the buffered bits. -/
def StrictP {α : Type} (p : P α) : Prop :=
  ∀ br v br', p br = .ok (v, br') →
    br'.buf = br.buf ∧ br.pos < br'.pos ∧ br'.pos ≤ 8 * br.buf.length

/-! ### Bit reader lemmas -/

theorem bitAt_append (buf b : List Nat) (i : Nat) (h : i < 8 * buf.length) :
    bitAt (buf ++ b) i = bitAt buf i := by
  have hi : i / 8 < buf.length := by
    refine (Nat.div_lt_iff_lt_mul (by norm_num)).mpr (by omega)
  unfold bitAt
  rw [List.getD_eq_getElem?_getD, List.getD_eq_getElem?_getD,
    List.getElem?_append_left hi]

theorem bitsVal_append (buf b : List Nat) (p n : Nat)
    (h : p + n ≤ 8 * buf.length) :
    bitsVal (buf ++ b) p n = bitsVal buf p n := by
  induction n generalizing p with
  | zero => rfl
  | succ n ih =>
    show bitAt (buf ++ b) p + 2 * bitsVal (buf ++ b) (p + 1) n = _
    rw [bitAt_append _ _ _ (by omega), ih _ (by omega)]
    rfl

theorem readBits_ok {br : BitReader} {n v : Nat} {br' : BitReader}
    (h : readBits br n = .ok (v, br')) :
    v = bitsVal br.buf br.pos n ∧ br' = { br with pos := br.pos + n } ∧
      br.pos + n ≤ 8 * br.buf.length := by
  unfold readBits at h
  by_cases hle : br.pos + n ≤ 8 * br.buf.length
  · rw [if_pos hle] at h
    simp only [Except.ok.injEq, Prod.mk.injEq] at h
    exact ⟨h.1.symm, h.2.symm, hle⟩
  · rw [if_neg hle] at h
    cases h

theorem readBits_error {br : BitReader} {n : Nat} {k : ErrKind}
    (h : readBits br n = .error k) : k = .InsufficientInput := by
  unfold readBits at h
  by_cases hle : br.pos + n ≤ 8 * br.buf.length
  · rw [if_pos hle] at h; cases h
  · rw [if_neg hle] at h
    exact (Except.error.injEq _ _).mp h.symm

/-! ### Stability of the parsers under feeding more input -/

theorem stableP_pureP {α : Type} (a : α) : StableP (pureP a) := by
  constructor
  · intro b br v br' h
    simp only [pureP, Except.ok.injEq, Prod.mk.injEq] at h
    rw [← h.1, ← h.2]
    rfl
  · intro b br k _ h
    exact Except.noConfusion h

theorem stableP_throwP {α : Type} (k : ErrKind) : StableP (@throwP α k) := by
  constructor
  · intro b br v br' h
    exact Except.noConfusion h
  · intro b br k0 _ h
    simp only [throwP, Except.error.injEq] at h
    rw [← h]
    rfl

theorem stableP_readBitsP (n : Nat) : StableP (readBitsP n) := by
  constructor
  · intro b br v br' h
    obtain ⟨hv, hbr, hle⟩ := readBits_ok h
    subst hv
    subst hbr
    show readBits (feedBR b br) n = _
    unfold readBits feedBR
    rw [if_pos (by simp only [List.length_append]; omega)]
    simp only [bitsVal_append _ _ _ _ hle]
  · intro b br k hk h
    exact absurd (readBits_error h) hk

theorem stableP_alignP : StableP alignP := by
  constructor
  · intro b br v br' h
    simp only [alignP, Except.ok.injEq, Prod.mk.injEq] at h
    rw [← h.2]
    rfl
  · intro b br k _ h
    exact Except.noConfusion h

theorem stableP_liftE {α : Type} (e : Except ErrKind α)
    (he : ∀ k, e = .error k → k ≠ .InsufficientInput) : StableP (liftE e) := by
  constructor
  · intro b br v br' h
    cases e with
    | ok a =>
      simp only [liftE, Except.ok.injEq, Prod.mk.injEq] at h
      rw [← h.1, ← h.2]
      rfl
    | error k => exact Except.noConfusion h
  · intro b br k _ h
    cases e with
    | ok a => exact Except.noConfusion h
    | error k0 =>
      simp only [liftE, Except.error.injEq] at h
      rw [← h]
      rfl

theorem stableP_bindP {α β : Type} {p : P α} {f : α → P β}
    (hp : StableP p) (hf : ∀ a, StableP (f a)) : StableP (bindP p f) := by
  constructor
  · intro b br v br' h
    show contE (p (feedBR b br)) f = _
    have h0 : contE (p br) f = .ok (v, br') := h
    cases hpr : p br with
    | ok x =>
      rw [hp.1 b br x.1 x.2 (by rw [hpr])]
      rw [hpr] at h0
      exact (hf x.1).1 b x.2 v br' h0
    | error e =>
      rw [hpr] at h0
      exact Except.noConfusion h0
  · intro b br k hk h
    show contE (p (feedBR b br)) f = _
    have h0 : contE (p br) f = .error k := h
    cases hpr : p br with
    | ok x =>
      rw [hp.1 b br x.1 x.2 (by rw [hpr])]
      rw [hpr] at h0
      exact (hf x.1).2 b x.2 k hk h0
    | error e =>
      rw [hpr] at h0
      simp only [contE, Except.error.injEq] at h0
      rw [← h0]
      rw [hp.2 b br e (h0 ▸ hk) hpr]
      rfl

theorem stableP_ite {α : Type} (c : Prop) [Decidable c] {p q : P α}
    (hp : StableP p) (hq : StableP q) : StableP (if c then p else q) := by
  by_cases hc : c
  · rw [if_pos hc]; exact hp
  · rw [if_neg hc]; exact hq

theorem stableP_iteB {α : Type} (c : Bool) {p q : P α}
    (hp : StableP p) (hq : StableP q) : StableP (if c then p else q) := by
  cases c
  · exact hq
  · exact hp

theorem stableP_optElim {α γ : Type} (o : Option γ) {p : P α} {f : γ → P α}
    (hp : StableP p) (hf : ∀ x, StableP (f x)) : StableP (o.elim p f) := by
  cases o with
  | none => exact hp
  | some x => exact hf x

theorem applyBackRef_error {out : List Nat} {d c : Nat} {k : ErrKind}
    (h : applyBackRef out d c = .error k) : k = .InvalidBackReference := by
  unfold applyBackRef at h
  by_cases hd : out.length < d
  · rw [if_pos hd] at h
    exact ((Except.error.injEq _ _).mp h).symm
  · rw [if_neg hd] at h
    cases hb : backRefCopy out d c with
    | some o => rw [hb] at h; cases h
    | none =>
      rw [hb] at h
      exact ((Except.error.injEq _ _).mp h).symm

theorem stableP_decodeSymAux (tbl : List (Nat × Nat)) :
    ∀ fuel len code, StableP (decodeSymAux tbl fuel len code) := by
  intro fuel
  induction fuel with
  | zero => intro len code; exact stableP_throwP _
  | succ fuel ih =>
    intro len code
    exact stableP_bindP (stableP_readBitsP 1) fun b =>
      stableP_optElim _ (ih _ _) fun s => stableP_pureP s

theorem stableP_decodeSym (tbl : List (Nat × Nat)) : StableP (decodeSym tbl) :=
  stableP_decodeSymAux tbl 15 0 0

theorem stableP_storedSetupP (fin : Bool) : StableP (storedSetupP fin) :=
  stableP_bindP stableP_alignP fun _ =>
  stableP_bindP (stableP_readBitsP 16) fun _ =>
  stableP_bindP (stableP_readBitsP 16) fun _ =>
  stableP_ite _ (stableP_pureP _) (stableP_throwP _)

theorem stableP_readNVals (width : Nat) :
    ∀ n, StableP (readNVals width n) := by
  intro n
  induction n with
  | zero => exact stableP_pureP _
  | succ n ih =>
    exact stableP_bindP (stableP_readBitsP width) fun v =>
      stableP_bindP ih fun rest => stableP_pureP _

theorem stableP_readCLs (tbl : List (Nat × Nat)) :
    ∀ fuel need prev, StableP (readCLs tbl fuel need prev) := by
  intro fuel
  induction fuel with
  | zero =>
    intro need prev
    exact stableP_ite _ (stableP_pureP _) (stableP_throwP _)
  | succ fuel ih =>
    intro need prev
    cases prev with
    | none =>
      refine stableP_ite _ (stableP_pureP _) ?_
      refine stableP_bindP (stableP_decodeSym tbl) fun s => ?_
      refine stableP_ite _ ?_ ?_
      · exact stableP_bindP (ih _ _) fun rest => stableP_pureP _
      refine stableP_ite _ (stableP_throwP _) ?_
      refine stableP_ite _ ?_ ?_
      · refine stableP_bindP (stableP_readBitsP 3) fun e => ?_
        refine stableP_ite _ ?_ (stableP_throwP _)
        exact stableP_bindP (ih _ _) fun rest => stableP_pureP _
      refine stableP_ite _ ?_ (stableP_throwP _)
      refine stableP_bindP (stableP_readBitsP 7) fun e => ?_
      refine stableP_ite _ ?_ (stableP_throwP _)
      exact stableP_bindP (ih _ _) fun rest => stableP_pureP _
    | some p =>
      refine stableP_ite _ (stableP_pureP _) ?_
      refine stableP_bindP (stableP_decodeSym tbl) fun s => ?_
      refine stableP_ite _ ?_ ?_
      · exact stableP_bindP (ih _ _) fun rest => stableP_pureP _
      refine stableP_ite _ ?_ ?_
      · refine stableP_bindP (stableP_readBitsP 2) fun e => ?_
        refine stableP_ite _ ?_ (stableP_throwP _)
        exact stableP_bindP (ih _ _) fun rest => stableP_pureP _
      refine stableP_ite _ ?_ ?_
      · refine stableP_bindP (stableP_readBitsP 3) fun e => ?_
        refine stableP_ite _ ?_ (stableP_throwP _)
        exact stableP_bindP (ih _ _) fun rest => stableP_pureP _
      refine stableP_ite _ ?_ (stableP_throwP _)
      refine stableP_bindP (stableP_readBitsP 7) fun e => ?_
      refine stableP_ite _ ?_ (stableP_throwP _)
      exact stableP_bindP (ih _ _) fun rest => stableP_pureP _

theorem stableP_dynHeaderP (fin : Bool) : StableP (dynHeaderP fin) := by
  refine stableP_bindP (stableP_readBitsP 5) fun hlit => ?_
  refine stableP_bindP (stableP_readBitsP 5) fun hdist => ?_
  refine stableP_bindP (stableP_readBitsP 4) fun hclen => ?_
  refine stableP_bindP (stableP_readNVals 3 _) fun clVals => ?_
  refine stableP_ite _ ?_ (stableP_throwP _)
  refine stableP_bindP (stableP_readCLs _ _ _ _) fun allLens => ?_
  exact stableP_ite _ (stableP_pureP _) (stableP_throwP _)

theorem stableP_headerP : StableP headerP := by
  refine stableP_bindP (stableP_readBitsP 1) fun f => ?_
  refine stableP_bindP (stableP_readBitsP 2) fun t => ?_
  refine stableP_ite _ (stableP_storedSetupP _) ?_
  refine stableP_ite _ (stableP_pureP _) ?_
  exact stableP_ite _ (stableP_dynHeaderP _) (stableP_throwP _)

theorem stableP_symP (lit dist : List (Nat × Nat)) (fin : Bool)
    (out : List Nat) : StableP (symP lit dist fin out) := by
  refine stableP_bindP (stableP_decodeSym lit) fun s => ?_
  refine stableP_ite _ (stableP_pureP _) ?_
  refine stableP_ite _ (stableP_pureP _) ?_
  refine stableP_optElim _ (stableP_throwP _) fun eb => ?_
  refine stableP_bindP (stableP_readBitsP _) fun ev => ?_
  refine stableP_bindP (stableP_decodeSym dist) fun ds => ?_
  refine stableP_optElim _ (stableP_throwP _) fun db => ?_
  refine stableP_bindP (stableP_readBitsP _) fun dv => ?_
  refine stableP_bindP
    (stableP_liftE _ fun k hk => by rw [applyBackRef_error hk]; intro hc; cases hc)
    fun out2 => ?_
  exact stableP_pureP _

/-! ### Feeding commutes with stepping -/

theorem applyP_feed {α : Type} {p : P α} (hp : StableP p) (b : List Nat)
    {s s' : DecSt} (upd : α → BitReader → DecSt)
    (hupd : ∀ a br2, feedD b (upd a br2) = upd a (feedBR b br2))
    (h : handleR (p s.br) s upd = some s') :
    handleR (p (feedBR b s.br)) (feedD b s) upd = some (feedD b s') := by
  cases hpr : p s.br with
  | ok x =>
    rw [hpr] at h
    have hx : s' = upd x.1 x.2 := by
      have : some (upd x.1 x.2) = some s' := h
      exact (Option.some.injEq _ _).mp this |>.symm
    rw [hp.1 b s.br x.1 x.2 (by rw [hpr])]
    rw [hx, hupd]
    rfl
  | error e =>
    rw [hpr] at h
    by_cases he : e = ErrKind.InsufficientInput
    · simp only [handleR, if_pos he] at h
      cases h
    · simp only [handleR, if_neg he] at h
      have hx : s' = { s with st := .Error e } := by
        exact ((Option.some.injEq _ _).mp h).symm
      rw [hp.2 b s.br e he hpr]
      simp only [handleR, if_neg he]
      rw [hx]
      rfl

theorem step_feed {s s2 : DecSt} (b : List Nat) (h : step s = some s2) :
    step (feedD b s) = some (feedD b s2) := by
  cases hst : s.st with
  | NeedMoreInput =>
    unfold step at h ⊢
    rw [hst] at h
    have hst2 : (feedD b s).st = MState.NeedMoreInput := hst
    rw [hst2]
    by_cases hc : 3 ≤ 8 * s.br.buf.length - s.br.pos
    · rw [if_pos hc] at h
      have hs2 : s2 = { s with st := .InBlockHeader } :=
        ((Option.some.injEq _ _).mp h).symm
      have hc2 : 3 ≤ 8 * (feedD b s).br.buf.length - (feedD b s).br.pos := by
        show 3 ≤ 8 * (s.br.buf ++ b).length - s.br.pos
        rw [List.length_append]
        omega
      rw [if_pos hc2, hs2]
      rfl
    · rw [if_neg hc] at h
      cases h
  | InBlockHeader =>
    unfold step at h ⊢
    rw [hst] at h
    have hst2 : (feedD b s).st = MState.InBlockHeader := hst
    rw [hst2]
    exact applyP_feed stableP_headerP b _ (fun a br2 => rfl) h
  | InStoredBlock r fin =>
    cases r with
    | zero =>
      unfold step at h ⊢
      rw [hst] at h
      have hst2 : (feedD b s).st = MState.InStoredBlock 0 fin := hst
      rw [hst2]
      have hs2 : s2 = { s with st := if fin then .Done else .InBlockHeader } :=
        ((Option.some.injEq _ _).mp h).symm
      rw [hs2]
      rfl
    | succ r =>
      unfold step at h ⊢
      rw [hst] at h
      have hst2 : (feedD b s).st = MState.InStoredBlock (r + 1) fin := hst
      rw [hst2]
      exact applyP_feed (stableP_readBitsP 8) b _ (fun a br2 => rfl) h
  | InHuffmanBlock lit dist fin =>
    unfold step at h ⊢
    rw [hst] at h
    have hst2 : (feedD b s).st = MState.InHuffmanBlock lit dist fin := hst
    rw [hst2]
    have hout : (feedD b s).out = s.out := rfl
    rw [hout]
    exact applyP_feed (stableP_symP lit dist fin s.out) b _ (fun a br2 => rfl) h
  | Done =>
    unfold step at h
    rw [hst] at h
    cases h
  | Error k =>
    unfold step at h
    rw [hst] at h
    cases h

/-! ### Progress: successful parses advance the cursor within bounds -/

theorem laxP_pureP {α : Type} (a : α) : LaxP (pureP a) := by
  intro br v br' h
  simp only [pureP, Except.ok.injEq, Prod.mk.injEq] at h
  rw [← h.2]
  exact ⟨rfl, Nat.le_refl _, Nat.le_max_right _ _⟩

theorem laxP_throwP {α : Type} (k : ErrKind) : LaxP (@throwP α k) := by
  intro br v br' h
  exact Except.noConfusion h

theorem laxP_readBitsP (n : Nat) : LaxP (readBitsP n) := by
  intro br v br' h
  obtain ⟨_, hbr, hle⟩ := readBits_ok h
  subst hbr
  refine ⟨rfl, by dsimp only; omega, ?_⟩
  exact Nat.le_trans (by dsimp only; omega) (Nat.le_max_left _ _)

theorem laxP_liftE {α : Type} (e : Except ErrKind α) : LaxP (liftE e) := by
  intro br v br' h
  cases e with
  | ok a =>
    simp only [liftE, Except.ok.injEq, Prod.mk.injEq] at h
    rw [← h.2]
    exact ⟨rfl, Nat.le_refl _, Nat.le_max_right _ _⟩
  | error k => exact Except.noConfusion h

theorem laxP_bindP {α β : Type} {p : P α} {f : α → P β}
    (hp : LaxP p) (hf : ∀ a, LaxP (f a)) : LaxP (bindP p f) := by
  intro br v br' h
  have h0 : contE (p br) f = .ok (v, br') := h
  cases hpr : p br with
  | ok x =>
    rw [hpr] at h0
    have h1 : f x.1 x.2 = .ok (v, br') := h0
    obtain ⟨hb1, hp1, hm1⟩ := hp br x.1 x.2 (by rw [hpr])
    obtain ⟨hb2, hp2, hm2⟩ := hf x.1 x.2 v br' h1
    refine ⟨by rw [hb2, hb1], by omega, ?_⟩
    rw [hb1] at hm2
    refine Nat.le_trans hm2 ?_
    have hstep := max_le_max (Nat.le_refl (8 * br.buf.length)) hm1
    rw [← max_assoc, max_self] at hstep
    exact hstep
  | error e =>
    rw [hpr] at h0
    exact Except.noConfusion h0

theorem laxP_ite {α : Type} (c : Prop) [Decidable c] {p q : P α}
    (hp : LaxP p) (hq : LaxP q) : LaxP (if c then p else q) := by
  by_cases hc : c
  · rw [if_pos hc]; exact hp
  · rw [if_neg hc]; exact hq

theorem laxP_optElim {α γ : Type} (o : Option γ) {p : P α} {f : γ → P α}
    (hp : LaxP p) (hf : ∀ x, LaxP (f x)) : LaxP (o.elim p f) := by
  cases o with
  | none => exact hp
  | some x => exact hf x

theorem laxP_of_strictP {α : Type} {p : P α} (h : StrictP p) : LaxP p := by
  intro br v br' hok
  obtain ⟨hb, hp, hm⟩ := h br v br' hok
  exact ⟨hb, Nat.le_of_lt hp, Nat.le_trans hm (Nat.le_max_left _ _)⟩

theorem strictP_readBitsP {n : Nat} (hn : 1 ≤ n) : StrictP (readBitsP n) := by
  intro br v br' h
  obtain ⟨_, hbr, hle⟩ := readBits_ok h
  subst hbr
  exact ⟨rfl, by dsimp only; omega, by dsimp only; omega⟩

theorem strictP_bindP_strict {α β : Type} {p : P α} {f : α → P β}
    (hp : StrictP p) (hf : ∀ a, LaxP (f a)) : StrictP (bindP p f) := by
  intro br v br' h
  have h0 : contE (p br) f = .ok (v, br') := h
  cases hpr : p br with
  | ok x =>
    rw [hpr] at h0
    have h1 : f x.1 x.2 = .ok (v, br') := h0
    obtain ⟨hb1, hp1, hm1⟩ := hp br x.1 x.2 (by rw [hpr])
    obtain ⟨hb2, hp2, hm2⟩ := hf x.1 x.2 v br' h1
    refine ⟨by rw [hb2, hb1], by omega, ?_⟩
    rw [hb1] at hm2
    have hmax : max (8 * br.buf.length) x.2.pos = 8 * br.buf.length :=
      max_eq_left hm1
    rw [hmax] at hm2
    exact hm2
  | error e =>
    rw [hpr] at h0
    exact Except.noConfusion h0

theorem strictP_decodeSymAux (tbl : List (Nat × Nat)) :
    ∀ fuel len code, StrictP (decodeSymAux tbl fuel len code) := by
  intro fuel
  induction fuel with
  | zero =>
    intro len code br v br' h
    exact Except.noConfusion h
  | succ fuel ih =>
    intro len code
    refine strictP_bindP_strict (strictP_readBitsP (Nat.le_refl 1)) fun b => ?_
    exact laxP_optElim _ (laxP_of_strictP (ih _ _)) fun s => laxP_pureP s

theorem strictP_decodeSym (tbl : List (Nat × Nat)) : StrictP (decodeSym tbl) :=
  strictP_decodeSymAux tbl 15 0 0

theorem alignPos_ge (p : Nat) : p ≤ alignPos p := by
  unfold alignPos
  omega

theorem alignPos_le {p m : Nat} (h : p ≤ 8 * m) : alignPos p ≤ 8 * m := by
  unfold alignPos
  omega

theorem strictP_storedSetupP (fin : Bool) : StrictP (storedSetupP fin) := by
  intro br v br' h
  have h1 : contE (readBits { buf := br.buf, pos := alignPos br.pos } 16)
      (fun len =>
        bindP (readBitsP 16) fun nlen =>
          if nlen = 65535 - len then pureP (.InStoredBlock len fin)
          else throwP .LengthMismatchError) = .ok (v, br') := h
  cases hr1 : readBits { buf := br.buf, pos := alignPos br.pos } 16 with
  | ok x =>
    rw [hr1] at h1
    obtain ⟨_, hbr1, hle1⟩ := readBits_ok hr1
    have h2 : contE (readBits x.2 16)
        (fun nlen =>
          if nlen = 65535 - x.1 then pureP (.InStoredBlock x.1 fin)
          else throwP .LengthMismatchError) = .ok (v, br') := h1
    cases hr2 : readBits x.2 16 with
    | ok y =>
      rw [hr2] at h2
      obtain ⟨_, hbr2, hle2⟩ := readBits_ok hr2
      have h3 : (if y.1 = 65535 - x.1 then pureP (MState.InStoredBlock x.1 fin)
          else @throwP MState .LengthMismatchError) y.2 = .ok (v, br') := h2
      by_cases hy : y.1 = 65535 - x.1
      · rw [if_pos hy] at h3
        simp only [pureP, Except.ok.injEq, Prod.mk.injEq] at h3
        rw [← h3.2, hbr2, hbr1]
        refine ⟨rfl, ?_, ?_⟩
        · have := alignPos_ge br.pos
          simp only
          omega
        · rw [hbr1] at hle2
          simp only at hle2 ⊢
          omega
      · rw [if_neg hy] at h3
        exact Except.noConfusion h3
    | error e =>
      rw [hr2] at h2
      exact Except.noConfusion h2
  | error e =>
    rw [hr1] at h1
    exact Except.noConfusion h1

theorem laxP_readNVals (width : Nat) : ∀ n, LaxP (readNVals width n) := by
  intro n
  induction n with
  | zero => exact laxP_pureP _
  | succ n ih =>
    exact laxP_bindP (laxP_readBitsP width) fun v =>
      laxP_bindP ih fun rest => laxP_pureP _

theorem laxP_readCLs (tbl : List (Nat × Nat)) :
    ∀ fuel need prev, LaxP (readCLs tbl fuel need prev) := by
  intro fuel
  induction fuel with
  | zero =>
    intro need prev
    exact laxP_ite _ (laxP_pureP _) (laxP_throwP _)
  | succ fuel ih =>
    intro need prev
    cases prev with
    | none =>
      refine laxP_ite _ (laxP_pureP _) ?_
      refine laxP_bindP (laxP_of_strictP (strictP_decodeSym tbl)) fun s => ?_
      refine laxP_ite _ ?_ ?_
      · exact laxP_bindP (ih _ _) fun rest => laxP_pureP _
      refine laxP_ite _ (laxP_throwP _) ?_
      refine laxP_ite _ ?_ ?_
      · refine laxP_bindP (laxP_readBitsP 3) fun e => ?_
        refine laxP_ite _ ?_ (laxP_throwP _)
        exact laxP_bindP (ih _ _) fun rest => laxP_pureP _
      refine laxP_ite _ ?_ (laxP_throwP _)
      refine laxP_bindP (laxP_readBitsP 7) fun e => ?_
      refine laxP_ite _ ?_ (laxP_throwP _)
      exact laxP_bindP (ih _ _) fun rest => laxP_pureP _
    | some p0 =>
      refine laxP_ite _ (laxP_pureP _) ?_
      refine laxP_bindP (laxP_of_strictP (strictP_decodeSym tbl)) fun s => ?_
      refine laxP_ite _ ?_ ?_
      · exact laxP_bindP (ih _ _) fun rest => laxP_pureP _
      refine laxP_ite _ ?_ ?_
      · refine laxP_bindP (laxP_readBitsP 2) fun e => ?_
        refine laxP_ite _ ?_ (laxP_throwP _)
        exact laxP_bindP (ih _ _) fun rest => laxP_pureP _
      refine laxP_ite _ ?_ ?_
      · refine laxP_bindP (laxP_readBitsP 3) fun e => ?_
        refine laxP_ite _ ?_ (laxP_throwP _)
        exact laxP_bindP (ih _ _) fun rest => laxP_pureP _
      refine laxP_ite _ ?_ (laxP_throwP _)
      refine laxP_bindP (laxP_readBitsP 7) fun e => ?_
      refine laxP_ite _ ?_ (laxP_throwP _)
      exact laxP_bindP (ih _ _) fun rest => laxP_pureP _

theorem strictP_dynHeaderP (fin : Bool) : StrictP (dynHeaderP fin) := by
  refine strictP_bindP_strict (strictP_readBitsP (by norm_num)) fun hlit => ?_
  refine laxP_bindP (laxP_readBitsP 5) fun hdist => ?_
  refine laxP_bindP (laxP_readBitsP 4) fun hclen => ?_
  refine laxP_bindP (laxP_readNVals 3 _) fun clVals => ?_
  refine laxP_ite _ ?_ (laxP_throwP _)
  refine laxP_bindP (laxP_readCLs _ _ _ _) fun allLens => ?_
  exact laxP_ite _ (laxP_pureP _) (laxP_throwP _)

theorem strictP_headerP : StrictP headerP := by
  refine strictP_bindP_strict (strictP_readBitsP (Nat.le_refl 1)) fun f => ?_
  refine laxP_bindP (laxP_readBitsP 2) fun t => ?_
  refine laxP_ite _ (laxP_of_strictP (strictP_storedSetupP _)) ?_
  refine laxP_ite _ (laxP_pureP _) ?_
  exact laxP_ite _ (laxP_of_strictP (strictP_dynHeaderP _)) (laxP_throwP _)

theorem strictP_symP (lit dist : List (Nat × Nat)) (fin : Bool)
    (out : List Nat) : StrictP (symP lit dist fin out) := by
  refine strictP_bindP_strict (strictP_decodeSym lit) fun s => ?_
  refine laxP_ite _ (laxP_pureP _) ?_
  refine laxP_ite _ (laxP_pureP _) ?_
  refine laxP_optElim _ (laxP_throwP _) fun eb => ?_
  refine laxP_bindP (laxP_readBitsP _) fun ev => ?_
  refine laxP_bindP (laxP_of_strictP (strictP_decodeSym dist)) fun ds => ?_
  refine laxP_optElim _ (laxP_throwP _) fun db => ?_
  refine laxP_bindP (laxP_readBitsP _) fun dv => ?_
  refine laxP_bindP (laxP_liftE _) fun out2 => ?_
  exact laxP_pureP _

/-! ### Every step strictly decreases the measure -/

theorem stWeight_le (st : MState) : stWeight st ≤ 2 := by
  cases st <;> simp [stWeight]

theorem stWeight_NMI : stWeight .NeedMoreInput = 2 := rfl

theorem stWeight_IBH : stWeight .InBlockHeader = 1 := rfl

theorem stWeight_ISB (r : Nat) (fin : Bool) :
    stWeight (.InStoredBlock r fin) = 2 := rfl

theorem stWeight_IHB (l d : List (Nat × Nat)) (fin : Bool) :
    stWeight (.InHuffmanBlock l d fin) = 1 := rfl

theorem stWeight_Done : stWeight .Done = 0 := rfl

theorem stWeight_Err (k : ErrKind) : stWeight (.Error k) = 0 := rfl

theorem measure_handleR {α : Type} {p : P α} (hps : StrictP p)
    {s s2 : DecSt} {upd : α → BitReader → DecSt}
    (hbr : ∀ a br2, (upd a br2).br = br2)
    (hws : 1 ≤ stWeight s.st)
    (h : handleR (p s.br) s upd = some s2) :
    measureOf s2 < measureOf s ∧ s2.br.buf = s.br.buf := by
  cases hpr : p s.br with
  | ok x =>
    rw [hpr] at h
    have hs2 : s2 = upd x.1 x.2 := ((Option.some.injEq _ _).mp h).symm
    obtain ⟨hb, hp, hm⟩ := hps s.br x.1 x.2 (by rw [hpr])
    have hw2 := stWeight_le (upd x.1 x.2).st
    rw [hs2]
    unfold measureOf
    rw [hbr x.1 x.2, hb]
    exact ⟨by omega, rfl⟩
  | error e =>
    rw [hpr] at h
    by_cases he : e = ErrKind.InsufficientInput
    · simp only [handleR, if_pos he] at h
      cases h
    · simp only [handleR, if_neg he] at h
      have hs2 : s2 = { s with st := .Error e } := ((Option.some.injEq _ _).mp h).symm
      rw [hs2]
      refine ⟨?_, rfl⟩
      unfold measureOf
      dsimp only
      rw [stWeight_Err]
      omega

theorem step_measure {s s2 : DecSt} (h : step s = some s2) :
    measureOf s2 < measureOf s ∧ s2.br.buf = s.br.buf := by
  cases hst : s.st with
  | NeedMoreInput =>
    unfold step at h
    rw [hst] at h
    by_cases hc : 3 ≤ 8 * s.br.buf.length - s.br.pos
    · rw [if_pos hc] at h
      have hs2 : s2 = { s with st := .InBlockHeader } :=
        ((Option.some.injEq _ _).mp h).symm
      rw [hs2]
      refine ⟨?_, rfl⟩
      unfold measureOf
      dsimp only
      rw [hst, stWeight_NMI, stWeight_IBH]
      omega
    · rw [if_neg hc] at h
      cases h
  | InBlockHeader =>
    unfold step at h
    rw [hst] at h
    refine measure_handleR strictP_headerP (fun a br2 => rfl) ?_ h
    rw [hst, stWeight_IBH]
  | InStoredBlock r fin =>
    cases r with
    | zero =>
      unfold step at h
      rw [hst] at h
      have hs2 : s2 = { s with st := if fin then .Done else .InBlockHeader } :=
        ((Option.some.injEq _ _).mp h).symm
      rw [hs2]
      refine ⟨?_, rfl⟩
      unfold measureOf
      dsimp only
      rw [hst, stWeight_ISB]
      cases fin with
      | true => rw [if_pos rfl, stWeight_Done]; omega
      | false => rw [if_neg Bool.false_ne_true, stWeight_IBH]; omega
    | succ r =>
      unfold step at h
      rw [hst] at h
      refine measure_handleR (strictP_readBitsP (by norm_num))
        (fun a br2 => rfl) ?_ h
      rw [hst, stWeight_ISB]
      norm_num
  | InHuffmanBlock lit dist fin =>
    unfold step at h
    rw [hst] at h
    refine measure_handleR (strictP_symP lit dist fin s.out)
      (fun a br2 => rfl) ?_ h
    rw [hst, stWeight_IHB]
  | Done =>
    unfold step at h
    rw [hst] at h
    cases h
  | Error k =>
    unfold step at h
    rw [hst] at h
    cases h

/-! ### Driving to the suspension fixpoint -/

theorem driveF_of_none {s : DecSt} (h : step s = none) :
    ∀ f, driveF f s = s := by
  intro f
  cases f with
  | zero => rfl
  | succ f =>
    show (match step s with | none => s | some s2 => driveF f s2) = s
    rw [h]

theorem driveF_succ_some {fuel : Nat} {s s2 : DecSt} (h : step s = some s2) :
    driveF (fuel + 1) s = driveF fuel s2 := by
  show (match step s with | none => s | some x => driveF fuel x) = driveF fuel s2
  rw [h]

theorem step_none_of_weight {s : DecSt} (hw : stWeight s.st = 0) :
    step s = none := by
  cases hst : s.st with
  | Done => unfold step; rw [hst]
  | Error k => unfold step; rw [hst]
  | NeedMoreInput => rw [hst, stWeight_NMI] at hw; cases hw
  | InBlockHeader => rw [hst, stWeight_IBH] at hw; cases hw
  | InStoredBlock r fin => rw [hst, stWeight_ISB] at hw; cases hw
  | InHuffmanBlock l d fin => rw [hst, stWeight_IHB] at hw; cases hw

theorem driveF_stuck : ∀ fuel s, measureOf s ≤ fuel →
    step (driveF fuel s) = none := by
  intro fuel
  induction fuel with
  | zero =>
    intro s hm
    have hw : stWeight s.st = 0 := by unfold measureOf at hm; omega
    exact step_none_of_weight hw
  | succ fuel ih =>
    intro s hm
    cases hs : step s with
    | none =>
      rw [driveF_of_none hs]
      exact hs
    | some s2 =>
      have hm2 := (step_measure hs).1
      rw [driveF_succ_some hs]
      exact ih s2 (by omega)

theorem driveF_buf : ∀ fuel s, (driveF fuel s).br.buf = s.br.buf := by
  intro fuel
  induction fuel with
  | zero => intro s; rfl
  | succ fuel ih =>
    intro s
    cases hs : step s with
    | none => rw [driveF_of_none hs]
    | some s2 =>
      rw [driveF_succ_some hs, ih s2, (step_measure hs).2]

theorem driveF_irrel : ∀ f1 f2 s, measureOf s ≤ f1 → measureOf s ≤ f2 →
    driveF f1 s = driveF f2 s := by
  intro f1
  induction f1 with
  | zero =>
    intro f2 s h1 h2
    have hw : stWeight s.st = 0 := by unfold measureOf at h1; omega
    rw [driveF_of_none (step_none_of_weight hw),
      driveF_of_none (step_none_of_weight hw)]
  | succ f1 ih =>
    intro f2 s h1 h2
    cases hs : step s with
    | none => rw [driveF_of_none hs, driveF_of_none hs]
    | some s2 =>
      have hm2 := (step_measure hs).1
      cases f2 with
      | zero =>
        exfalso
        have hw : stWeight s.st = 0 := by unfold measureOf at h2; omega
        rw [step_none_of_weight hw] at hs
        cases hs
      | succ f2 =>
        rw [driveF_succ_some hs, driveF_succ_some hs]
        exact ih f2 s2 (by omega) (by omega)

theorem measure_le_fuelOf (s : DecSt) : measureOf s ≤ fuelOf s := by
  have := stWeight_le s.st
  unfold measureOf fuelOf
  omega

theorem drive_stuck (s : DecSt) : step (drive s) = none :=
  driveF_stuck _ s (measure_le_fuelOf s)

theorem drive_buf (s : DecSt) : (drive s).br.buf = s.br.buf :=
  driveF_buf _ s

theorem drive_of_none {s : DecSt} (h : step s = none) : drive s = s :=
  driveF_of_none h _

theorem drive_step {s s2 : DecSt} (h : step s = some s2) :
    drive s = drive s2 := by
  unfold drive
  have hbuf := (step_measure h).2
  have hm := (step_measure h).1
  have hms := measure_le_fuelOf s
  have hfe : fuelOf s2 = fuelOf s := by unfold fuelOf; rw [hbuf]
  have h1 : fuelOf s = (fuelOf s - 1) + 1 := by unfold fuelOf; omega
  rw [h1, driveF_succ_some h]
  exact driveF_irrel _ _ s2 (by omega) (by rw [hfe]; omega)

/-! ### The key resumability lemma: driving early never changes the result -/

theorem drive_feed_drive_aux : ∀ n s b, measureOf s ≤ n →
    drive (feedD b (drive s)) = drive (feedD b s) := by
  intro n
  induction n with
  | zero =>
    intro s b hm
    have hw : stWeight s.st = 0 := by unfold measureOf at hm; omega
    rw [drive_of_none (step_none_of_weight hw)]
  | succ n ih =>
    intro s b hm
    cases hs : step s with
    | none => rw [drive_of_none hs]
    | some s2 =>
      have hm2 := (step_measure hs).1
      rw [drive_step hs, drive_step (step_feed b hs)]
      exact ih s2 b (by omega)

theorem drive_feed_drive (s : DecSt) (b : List Nat) :
    drive (feedD b (drive s)) = drive (feedD b s) :=
  drive_feed_drive_aux (measureOf s) s b (Nat.le_refl _)

theorem feedD_feedD (a b : List Nat) (s : DecSt) :
    feedD b (feedD a s) = feedD (a ++ b) s := by
  unfold feedD feedBR
  simp [List.append_assoc]

theorem feedD_nil (s : DecSt) : feedD [] s = s := by
  unfold feedD feedBR
  simp

theorem runChunks_join : ∀ (cs : List (List Nat)) (s : DecSt),
    runChunks cs (drive s) = drive (feedD cs.flatten s) := by
  intro cs
  induction cs with
  | nil =>
    intro s
    show drive s = drive (feedD [] s)
    rw [feedD_nil]
  | cons c cs ih =>
    intro s
    show runChunks cs (decompressSt c (drive s)) = _
    unfold decompressSt
    rw [drive_feed_drive, ih (feedD c s), feedD_feedD, List.flatten_cons]

theorem drive_initSt : drive initSt = initSt := by
  apply drive_of_none
  rfl

theorem runChunks_eq_single (cs : List (List Nat)) :
    runChunks cs initSt = decompressSt cs.flatten initSt := by
  rw [← drive_initSt]
  rw [runChunks_join cs initSt]
  rfl

/-! ### Claim theorems -/

/-- C1: Chunking independence: for every raw DEFLATE byte sequence and every
partition of it into chunks (including a single call and per-byte calls),
feeding the chunks via decompress in order yields identical concatenated
output bytes, identical bytesConsumed(), and identical unusedData() as any
other partition of the same sequence.  (Proved for all byte sequences, in
particular all valid ones: the final decoder states are equal outright.) -/
theorem chunking_independence (cs1 cs2 : List (List Nat))
    (h : cs1.flatten = cs2.flatten) :
    (runChunks cs1 initSt).out = (runChunks cs2 initSt).out ∧
      bytesConsumed (runChunks cs1 initSt) = bytesConsumed (runChunks cs2 initSt) ∧
      unusedData (runChunks cs1 initSt) = unusedData (runChunks cs2 initSt) := by
  have he : runChunks cs1 initSt = runChunks cs2 initSt := by
    rw [runChunks_eq_single, runChunks_eq_single, h]
  rw [he]
  exact ⟨rfl, rfl, rfl⟩

/-- Witness for C1: splitting the two-byte stream `[0x03, 0x00]` into
per-byte chunks decodes identically to the single-call decode. -/
theorem chunking_independence_witness :
    (runChunks [[3], [0]] initSt).out = (runChunks [[3, 0]] initSt).out ∧
      bytesConsumed (runChunks [[3], [0]] initSt) =
        bytesConsumed (runChunks [[3, 0]] initSt) ∧
      unusedData (runChunks [[3], [0]] initSt) =
        unusedData (runChunks [[3, 0]] initSt) :=
  chunking_independence [[3], [0]] [[3, 0]] (by decide)

/-- C3: `readBits n` (n ≤ 32) fails with `InsufficientInput` exactly when
fewer than `n` bits are buffered, and the failure is recoverable: a
decompress call that pauses, followed by a later call with more bytes,
reaches exactly the state reached had the bytes arrived together — no
partial-symbol state is lost across calls. -/
theorem readBits_suspends_and_resumes :
    (∀ (br : BitReader) (n : Nat), n ≤ 32 → br.pos ≤ 8 * br.buf.length →
      (readBits br n = .error .InsufficientInput ↔
        8 * br.buf.length - br.pos < n)) ∧
    (∀ (a b : List Nat) (s : DecSt),
      decompressSt b (decompressSt a s) = decompressSt (a ++ b) s) := by
  constructor
  · intro br n hn hinv
    unfold readBits
    by_cases hc : br.pos + n ≤ 8 * br.buf.length
    · rw [if_pos hc]
      constructor
      · intro hcon
        exact Except.noConfusion hcon
      · intro hlt
        exact absurd hlt (by omega)
    · rw [if_neg hc]
      constructor
      · intro _
        omega
      · intro _
        rfl
  · intro a b s
    unfold decompressSt
    rw [drive_feed_drive, feedD_feedD]

/-- Witness for C3: a 16-bit read on a one-byte buffer suspends, and a
paused-and-resumed decode of `[0x03, 0x00]` equals the joint decode. -/
theorem readBits_suspends_and_resumes_witness :
    (readBits { buf := [7], pos := 0 } 16 = .error .InsufficientInput) ∧
      decompressSt [0] (decompressSt [3] initSt) =
        decompressSt ([3] ++ [0]) initSt :=
  ⟨(readBits_suspends_and_resumes.1 { buf := [7], pos := 0 } 16 (by norm_num)
      (by norm_num)).mpr (by norm_num),
    readBits_suspends_and_resumes.2 [3] [0] initSt⟩

/-- C4: `Done` is terminal and trailing data is isolated: once the decoder
is in `Done` (with the cursor inside the buffered bits, as in every
reachable state), every chunk fed afterwards leaves the state `Done`,
produces no output, is never counted by `bytesConsumed`, and appears
verbatim and in order at the end of `unusedData`. -/
theorem done_terminal (s : DecSt) (b : List Nat) (hs : s.st = MState.Done)
    (hw : s.br.pos ≤ 8 * s.br.buf.length) :
    (decompressSt b s).st = MState.Done ∧
    (decompressSt b s).out = s.out ∧
    bytesConsumed (decompressSt b s) = bytesConsumed s ∧
    unusedData (decompressSt b s) = unusedData s ++ b := by
  have hnone : step (feedD b s) = none := by
    unfold step
    have h2 : (feedD b s).st = MState.Done := hs
    rw [h2]
  have hd : decompressSt b s = feedD b s := drive_of_none hnone
  rw [hd]
  have h2 : (feedD b s).st = MState.Done := hs
  refine ⟨h2, rfl, rfl, ?_⟩
  unfold unusedData
  rw [h2, hs]
  show (s.br.buf ++ b).drop (bytesConsumed (feedD b s)) = _
  have hb : bytesConsumed (feedD b s) = bytesConsumed s := rfl
  rw [hb]
  have hlen : bytesConsumed s ≤ s.br.buf.length := by
    unfold bytesConsumed
    omega
  rw [List.drop_append_of_le_length hlen]

/-- Witness for C4: feeding `[9, 9]` to a finished decoder state. -/
theorem done_terminal_witness :
    (decompressSt [9, 9] doneSt).st = MState.Done ∧
    (decompressSt [9, 9] doneSt).out = doneSt.out ∧
    bytesConsumed (decompressSt [9, 9] doneSt) = bytesConsumed doneSt ∧
    unusedData (decompressSt [9, 9] doneSt) = unusedData doneSt ++ [9, 9] :=
  done_terminal doneSt [9, 9] rfl (by norm_num [doneSt])

/-- C5: fatal errors are terminal and sticky: once the decoder is in
`Error k`, every later `decompress` call fails with that same `k`, the
state stays `Error k`, no output is produced, and `flush` fails with the
same `k`. -/
theorem error_sticky (s : DecSt) (k : ErrKind) (b : List Nat)
    (hs : s.st = MState.Error k) :
    decompressCall b s = .error k ∧
    (decompressSt b s).st = MState.Error k ∧
    (decompressSt b s).out = s.out ∧
    flush (decompressSt b s) = .error k := by
  have hnone : step (feedD b s) = none := by
    unfold step
    have h2 : (feedD b s).st = MState.Error k := hs
    rw [h2]
  have hd : decompressSt b s = feedD b s := drive_of_none hnone
  have h2 : (feedD b s).st = MState.Error k := hs
  refine ⟨?_, by rw [hd]; exact h2, by rw [hd]; rfl, ?_⟩
  · unfold decompressCall
    rw [hd, h2]
  · rw [hd]
    unfold flush
    rw [h2]

/-- Witness for C5: after the reserved-block-type error, feeding `[5]`
keeps failing with `InvalidBlockType`. -/
theorem error_sticky_witness :
    decompressCall [5] errRun = .error .InvalidBlockType ∧
    (decompressSt [5] errRun).st = MState.Error .InvalidBlockType ∧
    (decompressSt [5] errRun).out = errRun.out ∧
    flush (decompressSt [5] errRun) = .error .InvalidBlockType :=
  error_sticky errRun .InvalidBlockType [5] (by decide)

theorem backRefCopy_ok : ∀ (cnt : Nat) (out : List Nat) (dist : Nat),
    1 ≤ dist → dist ≤ out.length →
    ∃ res, backRefCopy out dist cnt = some res ∧
      res.length = out.length + cnt ∧ res.take out.length = out := by
  intro cnt
  induction cnt with
  | zero =>
    intro out dist h1 h2
    exact ⟨out, rfl, rfl, List.take_length out⟩
  | succ cnt ih =>
    intro out dist h1 h2
    cases ho : out.get? (out.length - dist) with
    | none =>
      exfalso
      have := List.get?_eq_none.mp ho
      omega
    | some y =>
      have hrec : backRefCopy out dist (cnt + 1) = backRefCopy (out ++ [y]) dist cnt := by
        show (match out.get? (out.length - dist) with
          | none => none
          | some byte => backRefCopy (out ++ [byte]) dist cnt) = _
        rw [ho]
      obtain ⟨res, hsome, hlen, htake⟩ :=
        ih (out ++ [y]) dist h1 (by rw [List.length_append]; omega)
      refine ⟨res, by rw [hrec]; exact hsome, ?_, ?_⟩
      · rw [hlen, List.length_append]
        simp
        omega
      · have ht1 : res.take out.length = (res.take (out ++ [y]).length).take out.length := by
          rw [List.take_take]
          congr 1
          rw [List.length_append]
          exact (Nat.min_eq_left (by simp)).symm
        rw [ht1, htake]
        exact List.take_left out [y]

/-- C6: back-reference bounds: resolving a back-reference whose computed
distance exceeds the number of output bytes produced so far fails with
`InvalidBackReference`; for an in-range distance (≥ 1) the copy always
succeeds — every read is inside the window, the result extends the output
by exactly the requested count, and the existing output is untouched. -/
theorem backref_bounds :
    (∀ (out : List Nat) (dist cnt : Nat), out.length < dist →
      applyBackRef out dist cnt = .error .InvalidBackReference) ∧
    (∀ (out : List Nat) (dist cnt : Nat), 1 ≤ dist → dist ≤ out.length →
      ∃ res, applyBackRef out dist cnt = .ok res ∧
        res.length = out.length + cnt ∧ res.take out.length = out) := by
  constructor
  · intro out dist cnt hgt
    unfold applyBackRef
    rw [if_pos hgt]
  · intro out dist cnt h1 h2
    obtain ⟨res, hsome, hlen, htake⟩ := backRefCopy_ok cnt out dist h1 h2
    refine ⟨res, ?_, hlen, htake⟩
    unfold applyBackRef
    rw [if_neg (by omega), hsome]

/-- Witness for C6: distance 5 on 3 bytes of output fails; distance 2 with
count 4 succeeds and appends 4 bytes. -/
theorem backref_bounds_witness :
    applyBackRef [1, 2, 3] 5 2 = .error .InvalidBackReference ∧
    ∃ res, applyBackRef [1, 2, 3] 2 4 = .ok res ∧
      res.length = [1, 2, 3].length + 4 ∧ res.take [1, 2, 3].length = [1, 2, 3] :=
  ⟨backref_bounds.1 [1, 2, 3] 5 2 (by norm_num),
    backref_bounds.2 [1, 2, 3] 2 4 (by norm_num) (by norm_num)⟩

/-- C9: empty stored block boundary: from `InStoredBlock 0` (a stored block
whose `LEN` bytes are all copied, in particular `LEN = 0`) the machine makes
one transition that produces no output, reads no bits, and moves to `Done`
for a final block or `InBlockHeader` for a non-final one. -/
theorem empty_stored_block (s : DecSt) (fin : Bool)
    (hs : s.st = MState.InStoredBlock 0 fin) :
    step s = some { s with st := if fin then .Done else .InBlockHeader } ∧
    (driveF 1 s).out = s.out ∧ (driveF 1 s).br = s.br ∧
    (driveF 1 s).st = (if fin then MState.Done else MState.InBlockHeader) := by
  have h1 : step s = some { s with st := if fin then .Done else .InBlockHeader } := by
    unfold step
    rw [hs]
  refine ⟨h1, ?_, ?_, ?_⟩ <;> rw [driveF_succ_some h1] <;> rfl

/-- Witness for C9: an empty final stored block transitions to `Done` with
no output. -/
theorem empty_stored_block_witness :
    step emptyStoredSt =
      some { emptyStoredSt with st := if true then .Done else .InBlockHeader } ∧
    (driveF 1 emptyStoredSt).out = emptyStoredSt.out ∧
    (driveF 1 emptyStoredSt).br = emptyStoredSt.br ∧
    (driveF 1 emptyStoredSt).st =
      (if true then MState.Done else MState.InBlockHeader) :=
  empty_stored_block emptyStoredSt true rfl

/-! ### Byte-aligned reads are little-endian byte reads -/

theorem bitAt_byte (buf : List Nat) (q r : Nat) (hr : r < 8) :
    bitAt buf (8 * q + r) = buf.getD q 0 / 2 ^ r % 2 := by
  unfold bitAt
  rw [show (8 * q + r) / 8 = q by omega, show (8 * q + r) % 8 = r by omega]

theorem bitsVal_split (buf : List Nat) : ∀ (m p n : Nat),
    bitsVal buf p (m + n) = bitsVal buf p m + 2 ^ m * bitsVal buf (p + m) n := by
  intro m
  induction m with
  | zero =>
    intro p n
    simp [bitsVal]
  | succ m ih =>
    intro p n
    rw [show m + 1 + n = (m + n) + 1 by omega]
    show bitAt buf p + 2 * bitsVal buf (p + 1) (m + n) = _
    rw [ih (p + 1) n]
    show _ = bitAt buf p + 2 * bitsVal buf (p + 1) m +
      2 ^ (m + 1) * bitsVal buf (p + (m + 1)) n
    rw [pow_succ, show p + 1 + m = p + (m + 1) by omega]
    ring

theorem bitsVal_byte (buf : List Nat) (q : Nat) :
    bitsVal buf (8 * q) 8 = buf.getD q 0 % 256 := by
  have h0 : bitAt buf (8 * q) = buf.getD q 0 / 2 ^ 0 % 2 := by
    have h := bitAt_byte buf q 0 (by norm_num)
    rw [Nat.add_zero] at h
    exact h
  have hexp : bitsVal buf (8 * q) 8 =
      bitAt buf (8 * q) + 2 * (bitAt buf (8 * q + 1) + 2 * (bitAt buf (8 * q + 2) +
        2 * (bitAt buf (8 * q + 3) + 2 * (bitAt buf (8 * q + 4) +
        2 * (bitAt buf (8 * q + 5) + 2 * (bitAt buf (8 * q + 6) +
        2 * (bitAt buf (8 * q + 7) + 2 * 0))))))) := rfl
  rw [hexp, h0, bitAt_byte buf q 1 (by norm_num), bitAt_byte buf q 2 (by norm_num),
    bitAt_byte buf q 3 (by norm_num), bitAt_byte buf q 4 (by norm_num),
    bitAt_byte buf q 5 (by norm_num), bitAt_byte buf q 6 (by norm_num),
    bitAt_byte buf q 7 (by norm_num)]
  norm_num
  omega

theorem bitsVal_two_bytes (buf : List Nat) (q : Nat)
    (h0 : buf.getD q 0 < 256) (h1 : buf.getD (q + 1) 0 < 256) :
    bitsVal buf (8 * q) 16 = buf.getD q 0 + 256 * buf.getD (q + 1) 0 := by
  have hs := bitsVal_split buf 8 (8 * q) 8
  norm_num at hs
  rw [hs, show 8 * q + 8 = 8 * (q + 1) by ring, bitsVal_byte, bitsVal_byte,
    Nat.mod_eq_of_lt h0, Nat.mod_eq_of_lt h1]

theorem readBits_at (buf : List Nat) (p n : Nat) (h : p + n ≤ 8 * buf.length) :
    readBits { buf := buf, pos := p } n =
      .ok (bitsVal buf p n, { buf := buf, pos := p + n }) := by
  unfold readBits
  dsimp only
  rw [if_pos h]

theorem storedSetup_ok (br : BitReader) (fin : Bool)
    (havail : alignPos br.pos + 32 ≤ 8 * br.buf.length)
    (hok : bitsVal br.buf (alignPos br.pos + 16) 16 =
      65535 - bitsVal br.buf (alignPos br.pos) 16) :
    storedSetupP fin br =
      .ok (.InStoredBlock (bitsVal br.buf (alignPos br.pos) 16) fin,
        { buf := br.buf, pos := alignPos br.pos + 32 }) := by
  have key : storedSetupP fin br =
      contE (readBits { buf := br.buf, pos := alignPos br.pos } 16)
        (fun len =>
          bindP (readBitsP 16) fun nlen =>
            if nlen = 65535 - len then pureP (.InStoredBlock len fin)
            else throwP .LengthMismatchError) := rfl
  rw [key, readBits_at br.buf (alignPos br.pos) 16 (by omega)]
  simp only [contE, bindP, readBitsP]
  rw [readBits_at br.buf (alignPos br.pos + 16) 16 (by omega)]
  simp only [contE]
  rw [if_pos hok]
  rfl

theorem storedSetup_mismatch (br : BitReader) (fin : Bool)
    (havail : alignPos br.pos + 32 ≤ 8 * br.buf.length)
    (hne : bitsVal br.buf (alignPos br.pos + 16) 16 ≠
      65535 - bitsVal br.buf (alignPos br.pos) 16) :
    storedSetupP fin br = .error .LengthMismatchError := by
  have key : storedSetupP fin br =
      contE (readBits { buf := br.buf, pos := alignPos br.pos } 16)
        (fun len =>
          bindP (readBitsP 16) fun nlen =>
            if nlen = 65535 - len then pureP (.InStoredBlock len fin)
            else throwP .LengthMismatchError) := rfl
  rw [key, readBits_at br.buf (alignPos br.pos) 16 (by omega)]
  simp only [contE, bindP, readBitsP]
  rw [readBits_at br.buf (alignPos br.pos + 16) 16 (by omega)]
  simp only [contE]
  rw [if_neg hne]
  rfl

theorem stored_copy : ∀ (r : Nat) (s : DecSt) (q : Nat) (fin : Bool),
    s.st = .InStoredBlock r fin → s.br.pos = 8 * q →
    q + r ≤ s.br.buf.length →
    (∀ i, i < r → s.br.buf.getD (q + i) 0 < 256) →
    driveF (r + 1) s =
      { br := { buf := s.br.buf, pos := 8 * (q + r) },
        st := if fin then .Done else .InBlockHeader,
        out := s.out ++ (s.br.buf.drop q).take r } := by
  intro r
  induction r with
  | zero =>
    intro s q fin hst hpos hav hbytes
    have h1 : step s = some { s with st := if fin then .Done else .InBlockHeader } := by
      unfold step
      rw [hst]
    rw [driveF_succ_some h1]
    show { s with st := if fin then .Done else .InBlockHeader } = _
    obtain ⟨⟨buf, pos⟩, st, out⟩ := s
    simp only at hpos
    subst hpos
    simp
  | succ r ih =>
    intro s q fin hst hpos hav hbytes
    have hsbr : s.br = { buf := s.br.buf, pos := 8 * q } := by rw [← hpos]
    have hread : readBits s.br 8 =
        .ok (s.br.buf.getD q 0, { buf := s.br.buf, pos := 8 * (q + 1) }) := by
      have h := readBits_at s.br.buf (8 * q) 8 (by omega)
      rw [bitsVal_byte] at h
      have hq0 := hbytes 0 (by omega)
      rw [Nat.add_zero] at hq0
      rw [Nat.mod_eq_of_lt hq0] at h
      rw [show 8 * q + 8 = 8 * (q + 1) by ring] at h
      rw [hsbr]
      exact h
    have h1 : step s = some
        { s with
          st := .InStoredBlock r fin,
          br := { buf := s.br.buf, pos := 8 * (q + 1) },
          out := s.out ++ [s.br.buf.getD q 0] } := by
      unfold step
      rw [hst]
      unfold applyP readBitsP
      rw [hread]
      simp only [handleR]
    rw [driveF_succ_some h1]
    rw [ih _ (q + 1) fin rfl rfl
      (by dsimp only; omega)
      (by
        intro i hi
        have h2 := hbytes (i + 1) (by omega)
        rw [show q + (i + 1) = q + 1 + i by omega] at h2
        exact h2)]
    dsimp only
    have e1 : q + 1 + r = q + (r + 1) := by omega
    have e2 : (s.out ++ [s.br.buf.getD q 0]) ++ (s.br.buf.drop (q + 1)).take r =
        s.out ++ (s.br.buf.drop q).take (r + 1) := by
      rw [List.append_assoc]
      congr 1
      have hq : q < s.br.buf.length := by omega
      have hd : s.br.buf.drop q = s.br.buf.getD q 0 :: s.br.buf.drop (q + 1) := by
        rw [List.getD_eq_getElem _ _ hq]
        exact List.drop_eq_getElem_cons hq
      rw [hd]
      rfl
    rw [e1, e2]

/-- C8: stored-block decoding: after the block header the decoder
byte-aligns and reads a 2-byte little-endian LEN and a 2-byte NLEN
(byte-aligned 16-bit reads are little-endian byte pairs); it fails with
`LengthMismatchError` exactly when NLEN is not the one-complement of LEN;
on a match it enters `InStoredBlock LEN` and then copies exactly LEN raw
input bytes unchanged to the output (hence to the sliding window, the
output suffix). -/
theorem stored_block_decoding :
    (∀ (buf : List Nat) (q : Nat), buf.getD q 0 < 256 → buf.getD (q + 1) 0 < 256 →
      bitsVal buf (8 * q) 16 = buf.getD q 0 + 256 * buf.getD (q + 1) 0) ∧
    (∀ (br : BitReader) (fin : Bool), alignPos br.pos + 32 ≤ 8 * br.buf.length →
      (storedSetupP fin br = .error .LengthMismatchError ↔
        bitsVal br.buf (alignPos br.pos + 16) 16 ≠
          65535 - bitsVal br.buf (alignPos br.pos) 16)) ∧
    (∀ (br : BitReader) (fin : Bool), alignPos br.pos + 32 ≤ 8 * br.buf.length →
      bitsVal br.buf (alignPos br.pos + 16) 16 =
        65535 - bitsVal br.buf (alignPos br.pos) 16 →
      storedSetupP fin br =
        .ok (.InStoredBlock (bitsVal br.buf (alignPos br.pos) 16) fin,
          { buf := br.buf, pos := alignPos br.pos + 32 })) ∧
    (∀ (r : Nat) (s : DecSt) (q : Nat) (fin : Bool),
      s.st = .InStoredBlock r fin → s.br.pos = 8 * q →
      q + r ≤ s.br.buf.length →
      (∀ i, i < r → s.br.buf.getD (q + i) 0 < 256) →
      driveF (r + 1) s =
        { br := { buf := s.br.buf, pos := 8 * (q + r) },
          st := if fin then .Done else .InBlockHeader,
          out := s.out ++ (s.br.buf.drop q).take r }) := by
  refine ⟨bitsVal_two_bytes, ?_, storedSetup_ok, stored_copy⟩
  intro br fin havail
  constructor
  · intro herr hok
    rw [storedSetup_ok br fin havail hok] at herr
    exact Except.noConfusion herr
  · exact storedSetup_mismatch br fin havail

/-- Witness for C8: a final stored block `01 02 00 fd ff aa bb` with LEN=2
copies the two raw bytes `aa bb` and finishes. -/
theorem stored_block_decoding_witness :
    bitsVal [2, 0, 253, 255, 170, 187] 0 16 =
      [2, 0, 253, 255, 170, 187].getD 0 0 +
        256 * [2, 0, 253, 255, 170, 187].getD 1 0 ∧
    storedSetupP true { buf := [2, 0, 253, 255, 170, 187], pos := 0 } =
      .ok (.InStoredBlock 2 true, { buf := [2, 0, 253, 255, 170, 187], pos := 32 }) ∧
    driveF 3 storedDemoSt = storedDemoEnd := by
  refine ⟨?_, ?_, ?_⟩
  · have h := stored_block_decoding.1 [2, 0, 253, 255, 170, 187] 0
      (by norm_num) (by norm_num)
    simpa using h
  · have h := stored_block_decoding.2.2.1
      { buf := [2, 0, 253, 255, 170, 187], pos := 0 } true (by decide) (by decide)
    simpa using h
  · have h := stored_block_decoding.2.2.2 2 storedDemoSt 4 true rfl (by decide)
      (by decide) (by decide)
    simpa using h

/-! ### Canonical Huffman construction -/

theorem countLen_cons (x : Nat) (t : List Nat) (l : Nat) :
    countLen (x :: t) l = (if x = l then 1 else 0) + countLen t l := by
  unfold countLen
  rw [List.filter_cons]
  by_cases hx : x = l
  · rw [if_pos (by simpa using hx), if_pos hx]
    simp
    omega
  · rw [if_neg (by simpa using hx), if_neg hx]
    simp

theorem countLen_append (a b : List Nat) (l : Nat) :
    countLen (a ++ b) l = countLen a l + countLen b l := by
  unfold countLen
  rw [List.filter_append, List.length_append]

theorem nextCode_succ (lens : List Nat) (l : Nat) (hl : 1 ≤ l) :
    nextCode lens (l + 1) = (nextCode lens l + countLen lens l) * 2 := by
  cases l with
  | zero => omega
  | succ l => rfl

theorem buildCodesAux_get? : ∀ (lens nxt : List Nat) (s l : Nat),
    lens.get? s = some l → l ≠ 0 → l < nxt.length →
    (buildCodesAux nxt lens).get? s =
      some (nxt.getD l 0 + countLen (lens.take s) l) := by
  intro lens
  induction lens with
  | nil =>
    intro nxt s l h _ _
    cases s <;> cases h
  | cons l0 rest ih =>
    intro nxt s l h hl hlen
    have hunf : buildCodesAux nxt (l0 :: rest) =
        if l0 = 0 then 0 :: buildCodesAux nxt rest
        else nxt.getD l0 0 :: buildCodesAux (nxt.set l0 (nxt.getD l0 0 + 1)) rest := rfl
    cases s with
    | zero =>
      have hl0 : l0 = l := by
        have : some l0 = some l := h
        exact (Option.some.injEq _ _).mp this
      subst hl0
      rw [hunf, if_neg hl]
      simp [countLen]
    | succ s =>
      have htail : rest.get? s = some l := h
      rw [List.take_succ_cons]
      by_cases h0 : l0 = 0
      · rw [hunf, if_pos h0]
        show (buildCodesAux nxt rest).get? s = _
        rw [ih nxt s l htail hl hlen, countLen_cons]
        have hne : ¬ l0 = l := fun hc => hl (hc ▸ h0)
        rw [if_neg hne]
        norm_num
      · rw [hunf, if_neg h0]
        show (buildCodesAux (nxt.set l0 (nxt.getD l0 0 + 1)) rest).get? s = _
        rw [ih _ s l htail hl (by rw [List.length_set]; exact hlen), countLen_cons]
        by_cases hll : l0 = l
        · subst hll
          have hset : (nxt.set l0 (nxt.getD l0 0 + 1)).getD l0 0 = nxt.getD l0 0 + 1 := by
            rw [List.getD_eq_getElem?_getD, List.getElem?_set_eq_of_lt _ hlen]
            rfl
          rw [hset, if_pos rfl]
          congr 1
          omega
        · have hset : (nxt.set l0 (nxt.getD l0 0 + 1)).getD l 0 = nxt.getD l 0 := by
            rw [List.getD_eq_getElem?_getD, List.getElem?_set_ne hll,
              ← List.getD_eq_getElem?_getD]
          rw [hset, if_neg hll]
          norm_num

theorem initNext_getD (lens : List Nat) (l : Nat) (hl : l < 16) :
    (initNext lens).getD l 0 = nextCode lens l := by
  unfold initNext
  rw [List.getD_eq_getElem?_getD, List.getElem?_map, List.getElem?_range hl]
  rfl

theorem codeOf_eq (lens : List Nat) (s l : Nat)
    (h : lens.get? s = some l) (hl : l ≠ 0) (hle : l ≤ 15) :
    codeOf lens s = nextCode lens l + countLen (lens.take s) l := by
  have hlen : l < (initNext lens).length := by
    unfold initNext
    rw [List.length_map, List.length_range]
    omega
  unfold codeOf buildCodes
  rw [List.getD_eq_getElem?_getD, ← List.get?_eq_getElem?,
    buildCodesAux_get? lens _ s l h hl hlen, initNext_getD lens l (by omega)]
  rfl

theorem rank_lt_count (lens : List Nat) (s l : Nat) (h : lens.get? s = some l) :
    countLen (lens.take s) l < countLen lens l := by
  have hs : s < lens.length := by
    by_contra hc
    rw [List.get?_eq_none.mpr (by omega)] at h
    cases h
  have hgl : lens[s] = l := by
    rw [List.get?_eq_getElem?] at h
    rw [List.getElem?_eq_getElem hs] at h
    exact (Option.some.injEq _ _).mp h
  conv_rhs => rw [← List.take_append_drop s lens]
  rw [List.drop_eq_getElem_cons hs, hgl, countLen_append, countLen_cons, if_pos rfl]
  omega

theorem rank_mono (lens : List Nat) (s1 s2 l : Nat)
    (h1 : lens.get? s1 = some l) (hlt : s1 < s2) :
    countLen (lens.take s1) l < countLen (lens.take s2) l := by
  have h1t : (lens.take s2).get? s1 = some l := by
    rw [List.get?_eq_getElem?, List.getElem?_take_of_lt hlt, ← List.get?_eq_getElem?]
    exact h1
  have hr := rank_lt_count (lens.take s2) s1 l h1t
  rw [List.take_take, Nat.min_eq_left (by omega)] at hr
  exact hr

theorem nextCode_ge (lens : List Nat) (l : Nat) (hl : 1 ≤ l) :
    ∀ d : Nat, 1 ≤ d →
      2 ^ d * (nextCode lens l + countLen lens l) ≤ nextCode lens (l + d) := by
  intro d
  induction d with
  | zero => intro h; omega
  | succ d ih =>
    intro _
    by_cases hd : d = 0
    · subst hd
      rw [nextCode_succ lens l hl, pow_one]
      omega
    · have ihd := ih (by omega)
      have heq : nextCode lens (l + d + 1) =
          (nextCode lens (l + d) + countLen lens (l + d)) * 2 :=
        nextCode_succ lens (l + d) (by omega)
      rw [show l + (d + 1) = l + d + 1 by omega, heq, pow_succ]
      have hmul : 2 ^ d * (nextCode lens l + countLen lens l) * 2 ≤
          (nextCode lens (l + d) + countLen lens (l + d)) * 2 :=
        Nat.mul_le_mul_right 2 (by omega)
      calc 2 ^ d * 2 * (nextCode lens l + countLen lens l)
          = 2 ^ d * (nextCode lens l + countLen lens l) * 2 := by ring
        _ ≤ (nextCode lens (l + d) + countLen lens (l + d)) * 2 := hmul

/-- C7: canonical Huffman table construction: the first code of each length
obeys `code[len] = (code[len-1] + count[len-1]) << 1` with `code[1] = 0`;
within a length class, codes are assigned in increasing symbol-index order
consecutively from the first code (the j-th used symbol of length `l` gets
`nextCode l + j`); and in every resulting table no used symbol's code is a
bit-string prefix of another's. -/
theorem canonical_huffman_table :
    (∀ lens : List Nat, nextCode lens 1 = 0 ∧
      ∀ l, 1 ≤ l →
        nextCode lens (l + 1) = (nextCode lens l + countLen lens l) * 2) ∧
    (∀ (lens : List Nat) (s l : Nat),
      lens.get? s = some l → l ≠ 0 → l ≤ 15 →
      codeOf lens s = nextCode lens l + countLen (lens.take s) l) ∧
    (∀ (lens : List Nat) (s1 s2 l1 l2 : Nat),
      lens.get? s1 = some l1 → lens.get? s2 = some l2 →
      l1 ≠ 0 → l2 ≠ 0 → l1 ≤ 15 → l2 ≤ 15 → s1 ≠ s2 →
      ¬ isPrefCode l1 (codeOf lens s1) l2 (codeOf lens s2)) := by
  refine ⟨fun lens => ⟨rfl, nextCode_succ lens⟩, codeOf_eq, ?_⟩
  intro lens s1 s2 l1 l2 h1 h2 hl1 hl2 hb1 hb2 hne hpref
  obtain ⟨hle, hdiv⟩ := hpref
  have hc1 := codeOf_eq lens s1 l1 h1 hl1 hb1
  have hc2 := codeOf_eq lens s2 l2 h2 hl2 hb2
  have hrank1 := rank_lt_count lens s1 l1 h1
  have hrank2 := rank_lt_count lens s2 l2 h2
  rcases Nat.lt_or_ge l1 l2 with hlt | hge
  · have hgrow := nextCode_ge lens l1 (by omega) (l2 - l1) (by omega)
    rw [show l1 + (l2 - l1) = l2 by omega] at hgrow
    have hup : 2 ^ (l2 - l1) * (codeOf lens s1 + 1) ≤ codeOf lens s2 := by
      have hstep : codeOf lens s1 + 1 ≤ nextCode lens l1 + countLen lens l1 := by
        omega
      calc 2 ^ (l2 - l1) * (codeOf lens s1 + 1)
          ≤ 2 ^ (l2 - l1) * (nextCode lens l1 + countLen lens l1) :=
            Nat.mul_le_mul_left _ hstep
        _ ≤ nextCode lens l2 := hgrow
        _ ≤ codeOf lens s2 := by omega
    have hdge : codeOf lens s1 + 1 ≤ codeOf lens s2 / 2 ^ (l2 - l1) := by
      rw [Nat.le_div_iff_mul_le (Nat.pos_pow_of_pos _ (by norm_num))]
      rw [Nat.mul_comm]
      exact hup
    omega
  · have heq : l1 = l2 := by omega
    subst heq
    rw [show l1 - l1 = 0 by omega, pow_zero, Nat.div_one] at hdiv
    rcases Nat.lt_or_ge s1 s2 with hs | hs
    · have hm := rank_mono lens s1 s2 l1 h1 hs
      omega
    · have hs2 : s2 < s1 := by omega
      have hm := rank_mono lens s2 s1 l1 h2 hs2
      omega

/-- Witness for C7: for the code lengths `[2, 1, 3, 3]` the builder assigns
codes `2, 0, 6, 7`; symbol 1's 1-bit code 0 is not a prefix of symbol 0's
2-bit code 2 (binary 10). -/
theorem canonical_huffman_table_witness :
    codeOf [2, 1, 3, 3] 2 = nextCode [2, 1, 3, 3] 3 +
      countLen ([2, 1, 3, 3].take 2) 3 ∧
    ¬ isPrefCode 1 (codeOf [2, 1, 3, 3] 1) 2 (codeOf [2, 1, 3, 3] 0) :=
  ⟨canonical_huffman_table.2.1 [2, 1, 3, 3] 2 3 rfl (by norm_num) (by norm_num),
    canonical_huffman_table.2.2 [2, 1, 3, 3] 1 0 1 2 rfl rfl (by norm_num)
      (by norm_num) (by norm_num) (by norm_num) (by norm_num)⟩

/-! ### The concrete 39-byte run -/

theorem driveF_add : ∀ (a b : Nat) (s : DecSt),
    driveF (a + b) s = driveF b (driveF a s) := by
  intro a
  induction a with
  | zero =>
    intro b s
    rw [Nat.zero_add]
    rfl
  | succ a ih =>
    intro b s
    cases hs : step s with
    | none => simp only [driveF_of_none hs]
    | some s2 =>
      rw [show a + 1 + b = (a + b) + 1 by omega, driveF_succ_some hs,
        driveF_succ_some hs, ih b s2]

theorem runStep0 : driveF 1 cs0 = cs1 := by decide

theorem runStep1 : driveF 1 cs1 = cs2 := by decide

theorem runStep2 : driveF 1 cs2 = cs3 := by decide

theorem runStep3 : driveF 1 cs3 = cs4 := by decide

theorem runStep4 : driveF 1 cs4 = cs5 := by decide

theorem runStep5 : driveF 1 cs5 = cs6 := by decide

theorem runStep6 : driveF 1 cs6 = cs7 := by decide

theorem runStep7 : driveF 1 cs7 = cs8 := by decide

theorem runStep8 : driveF 1 cs8 = cs9 := by decide

theorem runStep9 : driveF 1 cs9 = cs10 := by decide

theorem runStep10 : driveF 1 cs10 = cs11 := by decide

theorem runStep11 : driveF 1 cs11 = cs12 := by decide

theorem runStep12 : driveF 1 cs12 = cs13 := by decide

theorem runStep13 : driveF 1 cs13 = cs14 := by decide

theorem runStep14 : driveF 1 cs14 = cs15 := by decide

theorem runStep15 : driveF 1 cs15 = cs16 := by decide

theorem runStep16 : driveF 1 cs16 = cs17 := by decide

theorem runStep17 : driveF 1 cs17 = cs18 := by decide

theorem runStep18 : driveF 1 cs18 = cs19 := by decide

theorem runStep19 : driveF 1 cs19 = cs20 := by decide

theorem runStep20 : driveF 1 cs20 = cs21 := by decide

theorem runStep21 : driveF 1 cs21 = cs22 := by decide

theorem runStep22 : driveF 1 cs22 = cs23 := by decide

theorem runStep23 : driveF 1 cs23 = cs24 := by decide

theorem runStep24 : driveF 1 cs24 = cs25 := by decide

theorem runStep25 : driveF 1 cs25 = cs26 := by decide

theorem runStep26 : driveF 1 cs26 = cs27 := by decide

theorem runStep27 : driveF 1 cs27 = cs28 := by decide

theorem runStep28 : driveF 1 cs28 = cs29 := by decide

theorem runStep29 : driveF 1 cs29 = cs30 := by decide

theorem runStep30 : driveF 1 cs30 = cs31 := by decide

theorem runStep31 : driveF 1 cs31 = cs32 := by decide

theorem runStep32 : driveF 1 cs32 = cs33 := by decide

theorem runStep33 : driveF 1 cs33 = cs34 := by decide

theorem runStep34 : driveF 1 cs34 = cs35 := by decide

theorem runStep35 : driveF 1 cs35 = cs36 := by decide

theorem runStep36 : driveF 1 cs36 = cs37 := by decide

theorem runStep37 : driveF 1 cs37 = cs38 := by decide

theorem oneShot_eq_final : drive (feedD compressedBytes initSt) = cs38 := by
  have h0 : feedD compressedBytes initSt = cs0 := by decide
  show driveF (fuelOf (feedD compressedBytes initSt)) (feedD compressedBytes initSt) = cs38
  rw [h0]
  have hf : fuelOf cs0 = 628 := by decide
  rw [hf]
  rw [show (628 : Nat) = 1 + 627 by norm_num, driveF_add, runStep0]
  rw [show (627 : Nat) = 1 + 626 by norm_num, driveF_add, runStep1]
  rw [show (626 : Nat) = 1 + 625 by norm_num, driveF_add, runStep2]
  rw [show (625 : Nat) = 1 + 624 by norm_num, driveF_add, runStep3]
  rw [show (624 : Nat) = 1 + 623 by norm_num, driveF_add, runStep4]
  rw [show (623 : Nat) = 1 + 622 by norm_num, driveF_add, runStep5]
  rw [show (622 : Nat) = 1 + 621 by norm_num, driveF_add, runStep6]
  rw [show (621 : Nat) = 1 + 620 by norm_num, driveF_add, runStep7]
  rw [show (620 : Nat) = 1 + 619 by norm_num, driveF_add, runStep8]
  rw [show (619 : Nat) = 1 + 618 by norm_num, driveF_add, runStep9]
  rw [show (618 : Nat) = 1 + 617 by norm_num, driveF_add, runStep10]
  rw [show (617 : Nat) = 1 + 616 by norm_num, driveF_add, runStep11]
  rw [show (616 : Nat) = 1 + 615 by norm_num, driveF_add, runStep12]
  rw [show (615 : Nat) = 1 + 614 by norm_num, driveF_add, runStep13]
  rw [show (614 : Nat) = 1 + 613 by norm_num, driveF_add, runStep14]
  rw [show (613 : Nat) = 1 + 612 by norm_num, driveF_add, runStep15]
  rw [show (612 : Nat) = 1 + 611 by norm_num, driveF_add, runStep16]
  rw [show (611 : Nat) = 1 + 610 by norm_num, driveF_add, runStep17]
  rw [show (610 : Nat) = 1 + 609 by norm_num, driveF_add, runStep18]
  rw [show (609 : Nat) = 1 + 608 by norm_num, driveF_add, runStep19]
  rw [show (608 : Nat) = 1 + 607 by norm_num, driveF_add, runStep20]
  rw [show (607 : Nat) = 1 + 606 by norm_num, driveF_add, runStep21]
  rw [show (606 : Nat) = 1 + 605 by norm_num, driveF_add, runStep22]
  rw [show (605 : Nat) = 1 + 604 by norm_num, driveF_add, runStep23]
  rw [show (604 : Nat) = 1 + 603 by norm_num, driveF_add, runStep24]
  rw [show (603 : Nat) = 1 + 602 by norm_num, driveF_add, runStep25]
  rw [show (602 : Nat) = 1 + 601 by norm_num, driveF_add, runStep26]
  rw [show (601 : Nat) = 1 + 600 by norm_num, driveF_add, runStep27]
  rw [show (600 : Nat) = 1 + 599 by norm_num, driveF_add, runStep28]
  rw [show (599 : Nat) = 1 + 598 by norm_num, driveF_add, runStep29]
  rw [show (598 : Nat) = 1 + 597 by norm_num, driveF_add, runStep30]
  rw [show (597 : Nat) = 1 + 596 by norm_num, driveF_add, runStep31]
  rw [show (596 : Nat) = 1 + 595 by norm_num, driveF_add, runStep32]
  rw [show (595 : Nat) = 1 + 594 by norm_num, driveF_add, runStep33]
  rw [show (594 : Nat) = 1 + 593 by norm_num, driveF_add, runStep34]
  rw [show (593 : Nat) = 1 + 592 by norm_num, driveF_add, runStep35]
  rw [show (592 : Nat) = 1 + 591 by norm_num, driveF_add, runStep36]
  rw [show (591 : Nat) = 1 + 590 by norm_num, driveF_add, runStep37]
  exact driveF_of_none (by decide) 590

/-- The literal fixed tables are exactly what the canonical builder
produces from the fixed code-length assignments. -/
theorem fixedTables_eq :
    fixedLitTable = buildTable fixedLitLens ∧
      fixedDistTable = buildTable fixedDistLens := by
  constructor <;> decide

theorem flatten_map_singleton : ∀ l : List Nat, (l.map fun b => [b]).flatten = l := by
  intro l
  induction l with
  | nil => rfl
  | cons x t ih => simp [ih]

/-- C2: concrete scenario: feeding the fixed 39-byte sequence as raw
DEFLATE input makes the decoder reach `Done` with `unusedData()` empty and
`bytesConsumed()` equal to 39. -/
theorem concrete_scenario :
    oneShotRun.st = MState.Done ∧ unusedData oneShotRun = [] ∧
      bytesConsumed oneShotRun = 39 := by
  have h : oneShotRun = cs38 := oneShot_eq_final
  rw [h]
  exact ⟨rfl, by decide, by decide⟩

/-- C10: the two scripts' decode paths agree on the shared fixed input:
the one-call decode (check_deflate_consume.py) and the per-byte decode
followed by flush (analyze_python_deflate.py) produce the same decompressed
bytes, the same (empty) unused data, and the same eof flag (true), with
flush producing nothing further. -/
theorem scripts_equivalent :
    perByteRun = oneShotRun ∧
    perByteRun.out = oneShotRun.out ∧
    unusedData perByteRun = unusedData oneShotRun ∧
    unusedData perByteRun = [] ∧
    isEOF perByteRun = true ∧ isEOF oneShotRun = true ∧
    flush perByteRun = .ok [] := by
  have hpb : perByteRun = oneShotRun := by
    show runChunks (compressedBytes.map fun b => [b]) initSt =
      decompressSt compressedBytes initSt
    rw [runChunks_eq_single, flatten_map_singleton]
  have h : oneShotRun = cs38 := oneShot_eq_final
  refine ⟨hpb, by rw [hpb], by rw [hpb], ?_, ?_, ?_, ?_⟩
  · rw [hpb, h]
    decide
  · rw [hpb, h]
    rfl
  · rw [h]
    rfl
  · rw [hpb, h]
    rfl

end Cabriolet
